import Mathlib

/-!
Verification development for the dance-moms-transcripts pipeline.

The definitions below are a shallow embedding of the Python sources
(`dump_transcripts.py`, `structure_transcripts.py`, `normalize_speaker.py`):
strings are Lean `String`/`List Char`, Python floats computed from integer
fields are modelled as exact rationals, regular expressions are embedded as
explicit backtracking matchers specialised to the concrete patterns in the
source, and the single mutation performed by each concurrent fetch task is
modelled as an explicit write into an index-addressed list.  Modelling notes:
Python's `\d`, `\s`, `[A-Z]`, `.upper()` and `.strip()` are modelled over
their ASCII behaviour, which is exhaustive for the document formats the
pipeline consumes, and `str.splitlines` is modelled for newline-separated
text (the only separator occurring in WebVTT documents).
-/

namespace DanceMoms

/-! ### Character classes (ASCII models of the Python classes used) -/

/-- Python whitespace (`\s`, `str.strip`, `str.isspace`) restricted to ASCII. -/
def pyIsSpace (c : Char) : Bool :=
  c == ' ' || c == '\t' || c == '\n' || c == '\r' || c == '\x0b' || c == '\x0c'

/-- ASCII uppercase letter, the Python regex class `[A-Z]`. -/
def isUpperA (c : Char) : Bool :=
  65 ≤ c.toNat && c.toNat ≤ 90

/-- ASCII digit, the Python regex class `\d` on ASCII input. -/
def isDigitA (c : Char) : Bool :=
  48 ≤ c.toNat && c.toNat ≤ 57

/-- ASCII letter, the Python regex class `[A-Za-z]`. -/
def isAlphaA (c : Char) : Bool :=
  (65 ≤ c.toNat && c.toNat ≤ 90) || (97 ≤ c.toNat && c.toNat ≤ 122)

/-- Python `str.upper` on one character, ASCII model. -/
def pyUpperChar (c : Char) : Char :=
  if 97 ≤ c.toNat ∧ c.toNat ≤ 122 then Char.ofNat (c.toNat - 32) else c

/-! ### Python string primitives on `List Char` -/

/-- Python `str.upper`, character by character. -/
def pyUpperChars (l : List Char) : List Char :=
  l.map pyUpperChar

/-- Python `str.strip()`: drop whitespace from both ends. -/
def pyStripChars (l : List Char) : List Char :=
  ((l.dropWhile pyIsSpace).reverse.dropWhile pyIsSpace).reverse

/-- Python `str.strip()` on `String`. -/
def pyStrip (s : String) : String :=
  ⟨pyStripChars s.data⟩

/-- Python `s.strip().upper()` on `String`, the key computation used by
`SpeakerNormalizer`. -/
def pyStripUpper (s : String) : String :=
  ⟨pyUpperChars (pyStripChars s.data)⟩

/-- Python `str.upper()` on `String`. -/
def pyUpperStr (s : String) : String :=
  ⟨pyUpperChars s.data⟩

/-- Helper for `splitlinesChars`: accumulate the current line (reversed). -/
def splitlinesGo : List Char → List Char → List (List Char)
  | [], acc => [acc.reverse]
  | c :: rest, acc =>
    if c = '\n' then acc.reverse :: splitlinesGo rest []
    else splitlinesGo rest (c :: acc)

/-- Python `str.splitlines()` for newline-separated text: split on `'\n'`,
with no trailing empty line when the text ends in a newline. -/
def splitlinesChars (l : List Char) : List (List Char) :=
  match l with
  | [] => []
  | _ =>
    let parts := splitlinesGo l []
    if parts.getLast? = some [] then parts.dropLast else parts

/-- Python `str.splitlines()` on `String`. -/
def splitlines (s : String) : List String :=
  (splitlinesChars s.data).map (fun cs => ⟨cs⟩)

/-- Membership test `strStartsWith s p` for Python `s.startswith(p)`. -/
def strStartsWith (s p : String) : Bool :=
  List.isPrefixOf p.data s.data

/-- Python `not line.strip()` for a line: the line is blank (empty or only
whitespace). -/
def blankStr (s : String) : Bool :=
  (pyStripChars s.data).isEmpty

/-! ### Timestamp patterns

`dump_transcripts.py` uses
`TS_RE = \d\d:\d\d:\d\d\.\d{3}\s+-->\s+\d\d:\d\d:\d\d\.\d{3}` with `.search`;
`structure_transcripts.py` uses the same pattern anchored at the start with
the eight digit groups captured.  Both are embedded via `tsStampG`, which
consumes one `\d\d:\d\d:\d\d\.\d{3}` stamp and returns its four numeric
groups and the remaining characters. -/

/-- Numeric value of an ASCII digit character. -/
def digitVal (c : Char) : Nat := c.toNat - 48

/-- Parse one `\d\d:\d\d:\d\d\.\d{3}` stamp at the head of the input,
returning `(hours, minutes, seconds, milliseconds)` and the rest. -/
def tsStampG : List Char → Option ((Nat × Nat × Nat × Nat) × List Char)
  | d1 :: d2 :: ':' :: d3 :: d4 :: ':' :: d5 :: d6 :: '.' :: m1 :: m2 :: m3 :: rest =>
    if isDigitA d1 && isDigitA d2 && isDigitA d3 && isDigitA d4 && isDigitA d5 &&
        isDigitA d6 && isDigitA m1 && isDigitA m2 && isDigitA m3 then
      some ((digitVal d1 * 10 + digitVal d2,
             digitVal d3 * 10 + digitVal d4,
             digitVal d5 * 10 + digitVal d6,
             digitVal m1 * 100 + digitVal m2 * 10 + digitVal m3), rest)
    else none
  | _ => none

/-- Consume `\s+` (at least one whitespace character, greedily). -/
def spacePlus : List Char → Option (List Char)
  | c :: rest => if pyIsSpace c then some (rest.dropWhile pyIsSpace) else none
  | [] => none

/-- Match the full `stamp \s+ --> \s+ stamp` pattern at the head of the
input (trailing characters are allowed, as neither Python regex is
end-anchored). -/
def tsMatchAt (l : List Char) : Bool :=
  match tsStampG l with
  | none => false
  | some (_, r) =>
    match spacePlus r with
    | none => false
    | some r2 =>
      match r2 with
      | '-' :: '-' :: '>' :: r3 =>
        match spacePlus r3 with
        | none => false
        | some r4 => (tsStampG r4).isSome
      | _ => false

/-- Python `TS_RE.search(line)` from `dump_transcripts.py`: the timestamp
pattern occurs anywhere in the line. -/
def tsSearchChars : List Char → Bool
  | [] => false
  | c :: rest => tsMatchAt (c :: rest) || tsSearchChars rest

/-- `TS_RE.search` on a `String` line. -/
def tsSearch (s : String) : Bool :=
  tsSearchChars s.data

/-- Python `TS_RE.match(line)` from `structure_transcripts.py`: the anchored
timestamp pattern with its eight digit groups, condensed to the two stamps. -/
def tsMatchLine (s : String) : Option ((Nat × Nat × Nat × Nat) × (Nat × Nat × Nat × Nat)) :=
  match tsStampG s.data with
  | none => none
  | some (g1, r) =>
    match spacePlus r with
    | none => none
    | some r2 =>
      match r2 with
      | '-' :: '-' :: '>' :: r3 =>
        match spacePlus r3 with
        | none => none
        | some r4 =>
          match tsStampG r4 with
          | none => none
          | some (g2, _) => some (g1, g2)
      | _ => none

/-! ### merge_vtts (dump_transcripts.py, lines 56-71) -/

/-- Drop leading lines of a fragment up to its first line matching the timed
cue pattern (the `while i < len(lines) and not TS_RE.search(lines[i])` scan). -/
def dropUntilTS (lines : List String) : List String :=
  lines.dropWhile (fun l => !tsSearch l)

/-- Loop body of `merge_vtts`: accumulate output lines, tracking whether the
header fragment has been emitted yet. -/
def mergeGo : List String → Bool → List String
  | [], _ => []
  | v :: rest, header =>
    if v = "" then mergeGo rest header
    else
      let lines := splitlines v
      if lines = [] then mergeGo rest header
      else if header then ("" :: dropUntilTS lines) ++ mergeGo rest header
      else lines ++ mergeGo rest true

/-- `merge_vtts(vtts_texts)`: join the accumulated lines with newlines and
append a final newline. -/
def merge_vtts (vtts : List String) : String :=
  String.intercalate "\n" (mergeGo vtts false) ++ "\n"

/-- Continuation contributed by one non-header fragment: its lines from the
first timed-cue line onwards. -/
def contOf (v : String) : List String :=
  dropUntilTS (splitlines v)

/-- Specification-shaped document builder (from the spec's words): one header
block retained verbatim, then one blank-separated continuation per further
fragment. -/
def headerContinuations (hdr : List String) (conts : List (List String)) : String :=
  String.intercalate "\n" (hdr ++ conts.foldr (fun c acc => ("" :: c) ++ acc) []) ++ "\n"

/-- Merge as the claim literally states it: the first fragment of the list is
the header and every one of the remaining N-1 fragments contributes a
continuation, with no provision for empty fragments. -/
def claimMerge (vtts : List String) : String :=
  match vtts with
  | [] => "\n"
  | v :: rest => headerContinuations (splitlines v) (rest.map contOf)

/-! ### is_note_only (structure_transcripts.py, lines 42-53) -/

/-- Opening bracket, the regex class `[\[(]`. -/
def isOpenB (c : Char) : Bool := c == '(' || c == '['

/-- Closing bracket, the regex class `[\])]`. -/
def isCloseB (c : Char) : Bool := c == ')' || c == ']'

/-- Test on the first character of a list (false for the empty list). -/
def headIs (p : Char → Bool) (l : List Char) : Bool :=
  (l.head?.map p).getD false

/-- Test on the last character of a list (false for the empty list). -/
def lastIs (p : Char → Bool) (l : List Char) : Bool :=
  (l.getLast?.map p).getD false

/-- Python `re.fullmatch(r"[\[(].+?[\])]", t)`: first character any opening
bracket, last character any closing bracket, at least one character between
them, and no newline between them (`.` does not match a newline). -/
def note1 (l : List Char) : Bool :=
  decide (3 ≤ l.length) && headIs isOpenB l && lastIs isCloseB l &&
    (l.drop 1).dropLast.all (fun c => !(c == '\n'))

/-- Interior class of the second branch, regex `[A-Za-z\s'!-]`. -/
def coreClass (c : Char) : Bool :=
  isAlphaA c || pyIsSpace c || c == '\'' || c == '!' || c == '-'

/-- Python `(t.startswith("(") and t.endswith(")")) or (t.startswith("[")
and t.endswith("]"))`. -/
def wrappedPair (l : List Char) : Bool :=
  (decide (l.head? = some '(') && decide (l.getLast? = some ')')) ||
    (decide (l.head? = some '[') && decide (l.getLast? = some ']'))

/-- `is_note_only(text)` from `structure_transcripts.py`. -/
def is_note_only (text : String) : Bool :=
  let t := pyStripChars text.data
  if note1 t then true
  else
    let core := pyStripChars (t.filter (fun c => !(isOpenB c || isCloseB c)))
    if !core.isEmpty && core.all coreClass then wrappedPair t
    else false

/-- What the code actually tests on newline-free text: the stripped text has
length at least three, starts with some opening bracket and ends with some
closing bracket (not necessarily the matching one), with no constraint on the
interior characters. -/
def wrappedLoose (l : List Char) : Bool :=
  decide (3 ≤ l.length) && headIs isOpenB l && lastIs isCloseB l

/-- The caption-note classifier as the claim states it: the entire stripped
string is wrapped in a single matching bracket pair and its interior contains
only letters, apostrophes, hyphens, spaces and exclamation marks. -/
def noteOnlyClaim (text : String) : Bool :=
  let t := pyStripChars text.data
  decide (3 ≤ t.length) && wrappedPair t && (t.drop 1).dropLast.all coreClass

/-! ### extract_speaker (structure_transcripts.py, lines 56-73)

`SPEAKER_RE`, whose pattern is an anchored group of one `[A-Z]` character
and 1 to 40 characters of the tag class, an optional parenthetical aside,
and a colon with surrounding whitespace before the captured remainder.  It is
embedded as a backtracking matcher: group one is tried greedily from the
longest admissible length downwards (`speakerScan`), and for each candidate
length the deterministic remainder of the pattern is checked (`restOk`). -/

/-- The tag class: uppercase letters, digits, space, ampersand, apostrophe,
period, slash and hyphen. -/
def isSpeakerClass (c : Char) : Bool :=
  isUpperA c || isDigitA c || c == ' ' || c == '&' || c == '\'' || c == '.' ||
    c == '/' || c == '-'

/-- Match `\s*:\s*(.*)$` and return group two.  After the greedy `\s*` the
rest matches `(.*)$` exactly when it contains no newline, except that `$`
also matches just before one single trailing newline. -/
def sepColon (l : List Char) : Option (List Char) :=
  match l.dropWhile pyIsSpace with
  | ':' :: r =>
    let g := r.dropWhile pyIsSpace
    if g.contains '\n' then
      if g.getLast? = some '\n' && !(g.dropLast.contains '\n') then some g.dropLast
      else none
    else some g
  | _ => none

/-- Match the optional aside `\s*\([^)]*\)`: spaces, an opening parenthesis,
any characters other than `)`, and a closing parenthesis. -/
def parenAside (l : List Char) : Option (List Char) :=
  match l.dropWhile pyIsSpace with
  | '(' :: r =>
    match r.dropWhile (fun c => !(c == ')')) with
    | ')' :: r2 => some r2
    | _ => none
  | _ => none

/-- The part of the pattern after group one: try the parenthetical aside
first (the regex `?` is greedy), fall back to no aside. -/
def restOk (l : List Char) : Option (List Char) :=
  match parenAside l with
  | some r =>
    match sepColon r with
    | some g => some g
    | none => sepColon l
  | none => sepColon l

/-- Group one of length `n` is admissible at the head of `cs`: `n` does not
exceed the input, the first character is `[A-Z]` and the following `n - 1`
characters are in the tag class. -/
def groupOneOk (cs : List Char) (n : Nat) : Bool :=
  match cs with
  | [] => false
  | c :: rest => isUpperA c && (rest.take (n - 1)).all isSpeakerClass && decide (n ≤ cs.length)

/-- Backtracking scan for group one: try length `n` first, then shorter
lengths, never shorter than 2 (the `{1,40}` quantifier after the leading
`[A-Z]`). -/
def speakerScan (cs : List Char) : Nat → Option (List Char × List Char)
  | 0 => none
  | 1 => none
  | n + 2 =>
    if groupOneOk cs (n + 2) then
      match restOk (cs.drop (n + 2)) with
      | some g2 => some (cs.take (n + 2), g2)
      | none => speakerScan cs (n + 1)
    else speakerScan cs (n + 1)

/-- Full `SPEAKER_RE.match(text)`: group one is capped at 41 characters. -/
def speakerMatchChars (cs : List Char) : Option (List Char × List Char) :=
  speakerScan cs (min 41 cs.length)

/-- Body of `collapseWs`: the flag records whether we are inside a
whitespace run whose single replacement space was already emitted. -/
def collapseWsGo : List Char → Bool → List Char
  | [], _ => []
  | c :: rest, inRun =>
    if pyIsSpace c then
      if inRun then collapseWsGo rest true
      else ' ' :: collapseWsGo rest true
    else c :: collapseWsGo rest false

/-- Python `re.sub(r"\s+", " ", raw)`: collapse every whitespace run to one
space. -/
def collapseWs (l : List Char) : List Char :=
  collapseWsGo l false

/-- Python `norm.replace(" / ", "/")`. -/
def slashTighten : List Char → List Char
  | ' ' :: '/' :: ' ' :: rest => '/' :: slashTighten rest
  | c :: rest => c :: slashTighten rest
  | [] => []

/-- `extract_speaker(text)` returning `(speaker_raw, speaker_norm,
remainder_text)` as in the source. -/
def extract_speaker (text : String) : Option String × Option String × String :=
  match speakerMatchChars text.data with
  | none => (none, none, text)
  | some (g1, g2) =>
    let raw := pyStripChars g1
    if pyUpperChars raw ≠ raw then (none, none, text)
    else
      let norm := slashTighten (collapseWs raw)
      let remainder := pyStripChars g2
      (some ⟨raw⟩, some ⟨norm⟩, if remainder.isEmpty then text else ⟨remainder⟩)

/-- A speaker tag is present, as the code finds it: some admissible group-one
length between 2 and 41 whose leading character is an uppercase letter, whose
remaining characters are in the tag class, and after which the optional
parenthetical aside and the colon separator match. -/
def SpeakerTagShape (t : String) : Prop :=
  ∃ n, 2 ≤ n ∧ n ≤ 41 ∧ groupOneOk t.data n = true ∧ (restOk (t.data.drop n)).isSome = true

/-- The leading-run condition exactly as the claim words it: 2 to 41
characters all drawn from {uppercase letters, digits, space, &, ', ., /, -}
(no requirement that the first one is a letter), followed by the optional
aside and the colon. -/
def ClaimTagShape (t : String) : Prop :=
  ∃ n, 2 ≤ n ∧ n ≤ 41 ∧ n ≤ t.data.length ∧ (t.data.take n).all isSpeakerClass = true ∧
    pyUpperChars (t.data.take n) = t.data.take n ∧ (restOk (t.data.drop n)).isSome = true

/-! ### parse_vtt_cues (structure_transcripts.py, lines 76-102)

The parser walks the document's lines (the file's lines with the trailing
newline of each stripped, as done by the list comprehension in the source).
Python floats `h*3600 + m*60 + s + ms/1000` are modelled as exact
rationals. -/

/-- `parse_time_to_seconds(h, m, s, ms)` on the already-converted digit
groups. -/
def parse_time_to_seconds (h m s ms : Nat) : ℚ :=
  (h : ℚ) * 3600 + (m : ℚ) * 60 + (s : ℚ) + (ms : ℚ) / 1000

/-- Seconds value of one four-group stamp. -/
def stampSeconds (g : Nat × Nat × Nat × Nat) : ℚ :=
  parse_time_to_seconds g.1 g.2.1 g.2.2.1 g.2.2.2

/-- The composite of `TS_RE.match` and `parse_time_to_seconds` applied to
both endpoints (lines 90-94 of the source). -/
def tsParse (s : String) : Option (ℚ × ℚ) :=
  (tsMatchLine s).map (fun g => (stampSeconds g.1, stampSeconds g.2))

/-- Body of `parse_vtt_cues`, with a structural fuel argument (every
recursive call drops at least one line, so fuel bounded below by the number
of lines is never exhausted): skip blank, `WEBVTT`, `STYLE` and `NOTE` lines
(skipping a whole block after `STYLE`/`NOTE`), and on a timestamp line
collect the following non-blank lines as the cue text, then consume the
blank separator run. -/
def parseCuesFuel : Nat → List String → List (ℚ × ℚ × List String)
  | 0, _ => []
  | _ + 1, [] => []
  | fuel + 1, line :: rest =>
    if line = "" || strStartsWith line "WEBVTT" || strStartsWith line "STYLE" ||
        strStartsWith line "NOTE" then
      if strStartsWith line "STYLE" || strStartsWith line "NOTE" then
        parseCuesFuel fuel (rest.dropWhile (fun l => !blankStr l))
      else parseCuesFuel fuel rest
    else
      match tsParse line with
      | none => parseCuesFuel fuel rest
      | some (a, b) =>
        let txt := rest.takeWhile (fun l => !blankStr l)
        let r2 := (rest.dropWhile (fun l => !blankStr l)).dropWhile (fun l => blankStr l)
        (a, b, txt) :: parseCuesFuel fuel r2

/-- `parse_vtt_cues` on the document's lines. -/
def parseVttCues (lines : List String) : List (ℚ × ℚ × List String) :=
  parseCuesFuel lines.length lines

/-- One well-formed cue of the claim: a timestamp line followed by one or
more non-blank text lines. -/
structure CueBlock where
  line : String
  startS : ℚ
  stopS : ℚ
  txt : List String

/-- A cue block is well formed when its first line parses as a timestamp
line with the recorded endpoint values and its text lines are non-blank and
non-empty. -/
def WFBlock (b : CueBlock) : Prop :=
  tsParse b.line = some (b.startS, b.stopS) ∧ b.txt ≠ [] ∧ ∀ l ∈ b.txt, blankStr l = false

/-- Lines of one rendered cue block: timestamp line, text lines, blank
separator. -/
def renderBlock (b : CueBlock) : List String :=
  b.line :: b.txt ++ [""]

/-- Lines of a sequence of rendered cue blocks. -/
def renderBlocks : List CueBlock → List String
  | [] => []
  | b :: bs => renderBlock b ++ renderBlocks bs

/-- A merged transcript document with `K` well-formed cues: the `WEBVTT`
header, a blank line, and the cue blocks. -/
def renderDoc (blocks : List CueBlock) : List String :=
  "WEBVTT" :: "" :: renderBlocks blocks

/-! ### Candidate selection (dump_transcripts.py, lines 127-147) -/

/-- One capture candidate as built in step 1 of `main`; `t0` is the request
timestamp (modelled as a totally ordered natural number). -/
structure Candidate where
  url : String
  t0 : Nat
  uuid : String
  psid : String
  is_sdh : Bool
  lang_hit : Bool
deriving DecidableEq

/-- First sort-key component `not x["lang_hit"]` (False sorts before True). -/
def k1 (c : Candidate) : Nat := if c.lang_hit then 0 else 1

/-- Second sort-key component `not x["is_sdh"]`. -/
def k2 (c : Candidate) : Nat := if c.is_sdh then 0 else 1

/-- Strict lexicographic comparison of the Python sort keys
`(not lang_hit, not is_sdh, t0)`. -/
def keyLt (a b : Candidate) : Prop :=
  k1 a < k1 b ∨ (k1 a = k1 b ∧ (k2 a < k2 b ∨ (k2 a = k2 b ∧ a.t0 < b.t0)))

instance : DecidableRel keyLt := fun a b => by
  unfold keyLt
  infer_instance

/-- Non-strict key comparison; `items.sort(key=...)` orders by this, keeping
the input order of equal keys (Python's sort is stable). -/
def keyLe (a b : Candidate) : Prop := ¬ keyLt b a

instance : DecidableRel keyLe := fun a b => by
  unfold keyLe
  infer_instance

/-- `items.sort(key=lambda x: (not x["lang_hit"], not x["is_sdh"], x["t0"]))`
followed by `items[0]`: stable sort by the key, then the first element. -/
def pickBest (items : List Candidate) : Option Candidate :=
  (List.insertionSort keyLe items).head?

/-! ### Concurrent fragment fetching (dump_transcripts.py, lines 163-175)

Each `grab` task performs exactly one write, into the slot of its own
fragment index; `outcomes` fixes per-fragment results (the fetched text, or
the empty string substituted on failure), and a schedule is the order in
which the concurrent writes land. -/

/-- One task's effect: write fragment `i`'s outcome into slot `i`. -/
def fetchStep (outcomes : List String) (st : List (Option String)) (i : Nat) :
    List (Option String) :=
  st.set i (some (outcomes.getD i ""))

/-- Run all fetch tasks in schedule order over the pre-sized
`vtts = [None] * len(abs_urls)` array. -/
def runFetches (outcomes : List String) (sched : List Nat) : List (Option String) :=
  sched.foldl (fetchStep outcomes) (List.replicate outcomes.length none)

/-- The fragment array handed to `merge_vtts` once all tasks finished. -/
def finalFragments (outcomes : List String) (sched : List Nat) : List String :=
  (runFetches outcomes sched).map (fun o => o.getD "")

/-! ### Episode loop and index writing (dump_transcripts.py, lines 152-209) -/

/-- One row of the season index (the fields relevant to the episode loop). -/
structure IndexRow where
  episode : Nat
  m3u8 : String
  uuid : String
deriving DecidableEq

/-- Step 4 of `main`: enumerate the chosen candidates starting at 1; a failed
playlist fetch skips that candidate's episode (no row, no files) and the loop
continues with the next episode number. -/
def downloadGo (fetchPlaylist : String → Option String) : Nat → List Candidate → List IndexRow
  | _, [] => []
  | idx, c :: rest =>
    match fetchPlaylist c.url with
    | none => downloadGo fetchPlaylist (idx + 1) rest
    | some _ => { episode := idx, m3u8 := c.url, uuid := c.uuid } ::
        downloadGo fetchPlaylist (idx + 1) rest

/-- The index rows accumulated over the whole run. -/
def downloadRows (chosen : List Candidate) (fetchPlaylist : String → Option String) :
    List IndexRow :=
  downloadGo fetchPlaylist 1 chosen

/-- Step 5 of `main`: `csv.DictWriter(f, fieldnames=list(index_rows[0].keys()))`
evaluates `index_rows[0]`, which raises `IndexError` when no row was
collected; otherwise the rows are written. -/
def writeIndexCsv (rows : List IndexRow) : Except String (List IndexRow) :=
  match rows with
  | [] => Except.error "IndexError: list index out of range"
  | _ :: _ => Except.ok rows

/-- Steps 4 and 5 of `main` composed: episode loop, then the index file. -/
def dumpRun (chosen : List Candidate) (fetchPlaylist : String → Option String) :
    Except String (List IndexRow) :=
  writeIndexCsv (downloadRows chosen fetchPlaylist)

/-! ### SpeakerNormalizer (normalize_speaker.py) -/

/-- One row of the mapping CSV as seen through `csv.DictReader`: a missing
column reads as `None`. -/
structure MapRow where
  canonical : Option String
  role : Option String
  speaker : Option String
  aliases : Option String
deriving DecidableEq

/-- Python `x or default` on an optional string: `None` and `""` both fall
back to the default. -/
def pyOr (o : Option String) (d : String) : String :=
  match o with
  | none => d
  | some s => if s = "" then d else s

/-- The two dictionaries of `SpeakerNormalizer`, modelled as
newest-entry-first association lists (insertion overwrites on lookup). -/
structure NormState where
  alias_to_canonical : List (String × String)
  canonical_role : List (String × String)
deriving DecidableEq

/-- Python dict assignment `d[k] = v`. -/
def dictInsert (m : List (String × String)) (k v : String) : List (String × String) :=
  (k, v) :: m

/-- Python dict lookup `d.get(k)`. -/
def dictGet? (m : List (String × String)) (k : String) : Option String :=
  match m with
  | [] => none
  | (k', v) :: rest => if k' = k then some v else dictGet? rest k

/-- Helper for `re.split(r"[;,]\s*", aliases)`: split at each `;` or `,`,
consuming the whitespace run following the separator (the flag records being
inside that run). -/
def splitAliasesGo : List Char → List Char → Bool → List (List Char)
  | [], acc, _ => [acc.reverse]
  | c :: rest, acc, skip =>
    if skip && pyIsSpace c then splitAliasesGo rest acc true
    else if c == ';' || c == ',' then acc.reverse :: splitAliasesGo rest [] true
    else splitAliasesGo rest (c :: acc) false

/-- `re.split(r"[;,]\s*", aliases)` on a string. -/
def splitAliases (s : String) : List String :=
  (splitAliasesGo s.data [] false).map (fun cs => ⟨cs⟩)

/-- One iteration of `SpeakerNormalizer._load`'s row loop. -/
def loadStep (st : NormState) (r : MapRow) : NormState :=
  let canonical := pyStripUpper (pyOr r.canonical "")
  if canonical = "" then st
  else
    let role := pyStrip (pyOr r.role "")
    let speaker := pyStripUpper (pyOr r.speaker canonical)
    let aliases := pyStrip (pyOr r.aliases "")
    let st1 : NormState :=
      { st with alias_to_canonical := dictInsert st.alias_to_canonical speaker canonical }
    let st2 : NormState :=
      if role ≠ "" then
        { st1 with canonical_role := dictInsert st1.canonical_role canonical role }
      else st1
    let withAliases :=
      (splitAliases aliases).foldl
        (fun m a =>
          let a2 := pyStripUpper a
          if a2 ≠ "" then dictInsert m a2 canonical else m)
        st2.alias_to_canonical
    if aliases ≠ "" then { st2 with alias_to_canonical := withAliases }
    else st2

/-- `SpeakerNormalizer.__init__` over an already-parsed CSV row list. -/
def loadRows (rows : List MapRow) : NormState :=
  rows.foldl loadStep ⟨[], []⟩

/-- `SpeakerNormalizer.normalize(raw)`. -/
def normalize (st : NormState) (raw : String) : String × String :=
  let key := pyStripUpper raw
  if key = "" then ("", "")
  else
    let canonical := (dictGet? st.alias_to_canonical key).getD key
    let role := (dictGet? st.canonical_role canonical).getD ""
    (canonical, role)

/-- Canonical name contributed by a row (empty when the row is skipped). -/
def rowCanonical (r : MapRow) : String :=
  pyStripUpper (pyOr r.canonical "")

/-- Role contributed by a row. -/
def rowRole (r : MapRow) : String :=
  pyStrip (pyOr r.role "")

/-- Speaker key contributed by a row. -/
def rowSpeakerKey (r : MapRow) : String :=
  pyStripUpper (pyOr r.speaker (rowCanonical r))

/-- Alias keys contributed by a row, in insertion order. -/
def rowAliasKeys (r : MapRow) : List String :=
  if pyStrip (pyOr r.aliases "") ≠ "" then
    ((splitAliases (pyStrip (pyOr r.aliases ""))).map pyStripUpper).filter (fun a => a ≠ "")
  else []

/-- A non-skipped row defines the lookup key `k` when `k` is its speaker key
or one of its alias keys. -/
def definesKey (r : MapRow) (k : String) : Prop :=
  rowCanonical r ≠ "" ∧ (k = rowSpeakerKey r ∨ k ∈ rowAliasKeys r)

instance (r : MapRow) (k : String) : Decidable (definesKey r k) := by
  unfold definesKey
  infer_instance

/-- Specification-side description of the alias table: the canonical of the
last row of the mapping source that defines the key. -/
def lastCanonFor (rows : List MapRow) (k : String) : Option String :=
  match rows with
  | [] => none
  | r :: rest =>
    match lastCanonFor rest k with
    | some c => some c
    | none => if definesKey r k then some (rowCanonical r) else none

/-- Specification-side description of the role table: the last non-empty
role recorded for the canonical identity. -/
def lastRoleFor (rows : List MapRow) (c : String) : Option String :=
  match rows with
  | [] => none
  | r :: rest =>
    match lastRoleFor rest c with
    | some x => some x
    | none =>
      if rowCanonical r = c ∧ rowCanonical r ≠ "" ∧ rowRole r ≠ "" then some (rowRole r)
      else none

/-- The first non-empty role recorded for the canonical identity, as the
claim words it. -/
def firstRoleFor (rows : List MapRow) (c : String) : Option String :=
  match rows with
  | [] => none
  | r :: rest =>
    if rowCanonical r = c ∧ rowCanonical r ≠ "" ∧ rowRole r ≠ "" then some (rowRole r)
    else firstRoleFor rest c

/-! ### The speaker normalization pass (structure_transcripts.py, lines 198-205) -/

/-- One utterance record emitted by `process_episode`. -/
structure Utterance where
  season : Option Nat
  episode : Option Nat
  episode_id : String
  startS : ℚ
  stopS : ℚ
  speaker_raw : String
  speaker : String
  speaker_role : String
  text : String
  is_caption_note : Bool
deriving DecidableEq

/-- The per-record body of the normalization pass in `main`: records with a
non-empty speaker get the canonical speaker, and the role when the role is
non-empty and the record carries none yet. -/
def applySpeakerNorm (st : NormState) (u : Utterance) : Utterance :=
  if u.speaker ≠ "" then
    let cr := normalize st u.speaker
    let u1 := { u with speaker := cr.1 }
    if cr.2 ≠ "" ∧ u1.speaker_role = "" then { u1 with speaker_role := cr.2 }
    else u1
  else u

/-! ## Helper lemmas -/

theorem mem_of_mem_pyStripChars {c : Char} {l : List Char} (h : c ∈ pyStripChars l) :
    c ∈ l := by
  unfold pyStripChars at h
  rw [List.mem_reverse] at h
  have h2 := (List.dropWhile_sublist (l := (l.dropWhile pyIsSpace).reverse)
    (p := pyIsSpace)).mem h
  rw [List.mem_reverse] at h2
  exact (List.dropWhile_sublist (l := l) (p := pyIsSpace)).mem h2

theorem pyStripChars_all {p : Char → Bool} {l : List Char}
    (h : ∀ c ∈ l, p c = true) : ∀ c ∈ pyStripChars l, p c = true :=
  fun c hc => h c (mem_of_mem_pyStripChars hc)

theorem dropWhile_cons_neg {p : α → Bool} {a : α} {l : List α} (h : p a = false) :
    (a :: l).dropWhile p = a :: l := by
  simp [List.dropWhile, h]

theorem takeWhile_block {p : α → Bool} {txt rest : List α} {y : α}
    (h : ∀ x ∈ txt, p x = true) (hy : p y = false) :
    (txt ++ y :: rest).takeWhile p = txt := by
  induction txt with
  | nil => simp [List.takeWhile, hy]
  | cons a l ih =>
    have ha : p a = true := h a (by simp)
    simp only [List.cons_append, List.takeWhile_cons, ha, if_true]
    rw [ih (fun x hx => h x (by simp [hx]))]

theorem dropWhile_block {p : α → Bool} {txt rest : List α} {y : α}
    (h : ∀ x ∈ txt, p x = true) (hy : p y = false) :
    (txt ++ y :: rest).dropWhile p = y :: rest := by
  induction txt with
  | nil => simp [List.dropWhile, hy]
  | cons a l ih =>
    have ha : p a = true := h a (by simp)
    simp only [List.cons_append, List.dropWhile_cons, ha, if_true]
    exact ih (fun x hx => h x (by simp [hx]))

theorem note1_eq_wrappedLoose {l : List Char} (h : ∀ c ∈ l, (c == '\n') = false) :
    note1 l = wrappedLoose l := by
  unfold note1 wrappedLoose
  have hmid : ((l.drop 1).dropLast.all (fun c => !(c == '\n'))) = true := by
    rw [List.all_eq_true]
    intro c hc
    have hc2 : c ∈ l.drop 1 := (List.dropLast_sublist _).mem hc
    have hc3 : c ∈ l := List.drop_subset 1 l hc2
    simp [h c hc3]
  rw [hmid, Bool.and_true]

theorem is_note_only_eq_wrappedLoose (t : String)
    (h : t.data.all (fun c => !(c == '\n')) = true) :
    is_note_only t = wrappedLoose (pyStripChars t.data) := by
  have hall : ∀ c ∈ t.data, (c == '\n') = false := by
    intro c hc
    have := (List.all_eq_true.mp h) c hc
    simpa using this
  have hs : ∀ c ∈ pyStripChars t.data, (c == '\n') = false :=
    fun c hc => hall c (mem_of_mem_pyStripChars hc)
  have hA : note1 (pyStripChars t.data) = wrappedLoose (pyStripChars t.data) :=
    note1_eq_wrappedLoose hs
  unfold is_note_only
  dsimp only
  set s := pyStripChars t.data with hsdef
  by_cases hw : wrappedLoose s = true
  · rw [hA, hw, if_pos rfl]
  · have hw' : wrappedLoose s = false := by
      revert hw
      cases wrappedLoose s <;> simp
    rw [hA, hw']
    simp only [Bool.false_eq_true, if_false]
    by_cases hcond : (!(pyStripChars (s.filter fun c => !(isOpenB c || isCloseB c))).isEmpty &&
        (pyStripChars (s.filter fun c => !(isOpenB c || isCloseB c))).all coreClass) = true
    · rw [if_pos hcond]
      by_contra hwp
      have hwp : wrappedPair s = true := by
        revert hwp
        cases wrappedPair s <;> simp
      have hopen : headIs isOpenB s = true ∧ lastIs isCloseB s = true := by
        unfold wrappedPair at hwp
        rcases Bool.or_eq_true_iff.mp hwp with hh | hh <;>
          · obtain ⟨h1, h2⟩ := Bool.and_eq_true_iff.mp hh
            rw [decide_eq_true_iff] at h1 h2
            constructor <;> simp [headIs, lastIs, h1, h2, isOpenB, isCloseB]
      have hlen : ¬ (3 ≤ s.length) := by
        intro hge
        rw [wrappedLoose, decide_eq_true hge, hopen.1, hopen.2] at hw'
        simp at hw'
      match s, hwp, hlen with
      | [], hwp, _ => simp [wrappedPair] at hwp
      | [a], hwp, _ =>
        unfold wrappedPair at hwp
        rcases Bool.or_eq_true_iff.mp hwp with hh | hh <;>
          · obtain ⟨h1, h2⟩ := Bool.and_eq_true_iff.mp hh
            rw [decide_eq_true_iff] at h1 h2
            simp at h1 h2
            rw [h1] at h2
            exact absurd h2 (by decide)
      | [a, b], hwp, _ =>
        unfold wrappedPair at hwp
        have hfilter : ([a, b].filter fun c => !(isOpenB c || isCloseB c)) = [] := by
          rcases Bool.or_eq_true_iff.mp hwp with hh | hh <;>
            · obtain ⟨h1, h2⟩ := Bool.and_eq_true_iff.mp hh
              rw [decide_eq_true_iff] at h1 h2
              simp at h1 h2
              rw [h1, h2]
              decide
        rw [hfilter] at hcond
        simp [pyStripChars] at hcond
      | a :: b :: c :: r, _, hlen =>
        exact absurd (by simp) hlen
    · rw [if_neg hcond]

theorem splitlinesGo_ne_nil : ∀ (l acc : List Char), splitlinesGo l acc ≠ [] := by
  intro l
  induction l with
  | nil => intro acc; simp [splitlinesGo]
  | cons a rest ih =>
    intro acc
    by_cases ha : a = '\n'
    · simp [splitlinesGo, ha]
    · simp only [splitlinesGo, if_neg ha]
      exact ih _

theorem splitlinesGo_singleton : ∀ (l acc x : List Char),
    splitlinesGo l acc = [x] → x = acc.reverse ++ l := by
  intro l
  induction l with
  | nil =>
    intro acc x hx
    simp [splitlinesGo] at hx
    simp [hx.symm]
  | cons a rest ih =>
    intro acc x hx
    by_cases ha : a = '\n'
    · rw [splitlinesGo, if_pos ha] at hx
      have hne := splitlinesGo_ne_nil rest []
      cases hgo : splitlinesGo rest [] with
      | nil => exact absurd hgo hne
      | cons y ys =>
        rw [hgo] at hx
        simp at hx
    · rw [splitlinesGo, if_neg ha] at hx
      have hres := ih (a :: acc) x hx
      simp only [List.reverse_cons] at hres
      rw [hres, List.append_assoc]
      simp

theorem splitlinesChars_ne_nil {l : List Char} (h : l ≠ []) : splitlinesChars l ≠ [] := by
  unfold splitlinesChars
  match l, h with
  | c :: cs, _ =>
    dsimp only
    cases hgo : splitlinesGo (c :: cs) [] with
    | nil => exact absurd hgo (splitlinesGo_ne_nil _ _)
    | cons x xs =>
      cases xs with
      | nil =>
        have hx : x = c :: cs := by
          have := splitlinesGo_singleton (c :: cs) [] x hgo
          simpa using this
        rw [if_neg (by simp [hx])]
        simp
      | cons y ys =>
        by_cases hl : ((x :: y :: ys).getLast? = some ([] : List Char))
        · rw [if_pos hl]
          simp [List.dropLast]
        · rw [if_neg hl]
          simp

theorem splitlines_ne_nil {v : String} (h : v ≠ "") : splitlines v ≠ [] := by
  have hd : v.data ≠ [] := by
    intro hnil
    apply h
    cases v with
    | mk d =>
      simp only at hnil
      rw [hnil]
  unfold splitlines
  simp only [ne_eq, List.map_eq_nil_iff]
  exact splitlinesChars_ne_nil hd

theorem mergeGo_continuations {rest : List String} (h : ∀ w ∈ rest, w ≠ "") :
    mergeGo rest true = rest.foldr (fun w acc => ("" :: contOf w) ++ acc) [] := by
  induction rest with
  | nil => rfl
  | cons v vs ih =>
    have hv : v ≠ "" := h v (by simp)
    have hlines : splitlines v ≠ [] := splitlines_ne_nil hv
    rw [mergeGo, if_neg hv]
    dsimp only
    rw [if_neg hlines, if_pos rfl]
    simp only [List.foldr_cons]
    rw [ih (fun w hw => h w (by simp [hw]))]
    rfl

theorem merge_vtts_eq_headerContinuations {v : String} {rest : List String}
    (hv : v ≠ "") (hrest : ∀ w ∈ rest, w ≠ "") :
    merge_vtts (v :: rest) = headerContinuations (splitlines v) (rest.map contOf) := by
  unfold merge_vtts headerContinuations
  congr 2
  rw [mergeGo, if_neg hv]
  dsimp only
  rw [if_neg (splitlines_ne_nil hv), if_neg (by simp)]
  rw [mergeGo_continuations hrest, List.foldr_map]

theorem digit_not_space {c : Char} (h : isDigitA c = true) : pyIsSpace c = false := by
  unfold isDigitA at h
  rw [Bool.and_eq_true, decide_eq_true_iff, decide_eq_true_iff] at h
  unfold pyIsSpace
  have hne : ∀ d : Char, d.toNat < 48 → (c == d) = false := by
    intro d hd
    rw [Bool.eq_false_iff]
    intro hbeq
    rw [beq_iff_eq] at hbeq
    subst hbeq
    omega
  rw [hne ' ' (by decide), hne '\t' (by decide), hne '\n' (by decide),
    hne '\r' (by decide), hne '\x0b' (by decide), hne '\x0c' (by decide)]
  rfl

theorem tsStampG_shape {cs : List Char} {x : (Nat × Nat × Nat × Nat) × List Char}
    (h : tsStampG cs = some x) :
    ∃ d rest, cs = d :: rest ∧ isDigitA d = true := by
  rw [tsStampG.eq_def] at h
  split at h
  · rename_i d1 d2 d3 d4 d5 d6 m1 m2 m3 rest
    split at h
    · rename_i hcond
      simp only [Bool.and_eq_true] at hcond
      exact ⟨d1, _, rfl, hcond.1.1.1.1.1.1.1.1⟩
    · exact absurd h (by simp)
  · exact absurd h (by simp)

theorem tsParse_line_props {line : String} {g : ℚ × ℚ} (h : tsParse line = some g) :
    decide (line = "") = false ∧ strStartsWith line "WEBVTT" = false ∧
    strStartsWith line "STYLE" = false ∧ strStartsWith line "NOTE" = false ∧
    blankStr line = false := by
  have hstamp : ∃ d rest, line.data = d :: rest ∧ isDigitA d = true := by
    unfold tsParse tsMatchLine at h
    revert h
    cases hts : tsStampG line.data with
    | none => intro h; simp at h
    | some x =>
      intro _
      exact tsStampG_shape hts
  obtain ⟨d, rest, hdata, hd⟩ := hstamp
  have hbeq : ∀ e : Char, isDigitA e = false → (e == d) = false := by
    intro e he
    rw [Bool.eq_false_iff]
    intro hbeq
    rw [beq_iff_eq] at hbeq
    subst hbeq
    rw [he] at hd
    exact Bool.false_ne_true hd
  refine ⟨?_, ?_, ?_, ?_, ?_⟩
  · rw [decide_eq_false_iff_not]
    intro hlin
    rw [hlin] at hdata
    exact absurd hdata (by simp [String.data])
  · unfold strStartsWith
    rw [hdata, show ("WEBVTT" : String).data = 'W' :: 'E' :: 'B' :: 'V' :: 'T' :: 'T' :: [] from rfl]
    simp only [List.isPrefixOf]
    rw [hbeq 'W' (by decide)]
    rfl
  · unfold strStartsWith
    rw [hdata, show ("STYLE" : String).data = 'S' :: 'T' :: 'Y' :: 'L' :: 'E' :: [] from rfl]
    simp only [List.isPrefixOf]
    rw [hbeq 'S' (by decide)]
    rfl
  · unfold strStartsWith
    rw [hdata, show ("NOTE" : String).data = 'N' :: 'O' :: 'T' :: 'E' :: [] from rfl]
    simp only [List.isPrefixOf]
    rw [hbeq 'N' (by decide)]
    rfl
  · unfold blankStr pyStripChars
    rw [hdata]
    rw [dropWhile_cons_neg (digit_not_space hd)]
    rw [List.isEmpty_eq_false, ne_eq, List.reverse_eq_nil_iff]
    rw [List.dropWhile_eq_nil_iff]
    intro hall
    have hdmem : d ∈ (d :: rest).reverse := by simp
    have := hall d hdmem
    rw [digit_not_space hd] at this
    exact Bool.false_ne_true this

theorem parseCuesFuel_nil : ∀ f, parseCuesFuel f [] = []
  | 0 => rfl
  | _ + 1 => rfl

theorem parseCuesFuel_irrel : ∀ (f1 f2 : Nat) (lines : List String),
    lines.length ≤ f1 → lines.length ≤ f2 →
    parseCuesFuel f1 lines = parseCuesFuel f2 lines := by
  intro f1
  induction f1 with
  | zero =>
    intro f2 lines h1 _
    have : lines = [] := List.length_eq_zero.mp (Nat.le_zero.mp h1)
    rw [this, parseCuesFuel_nil, parseCuesFuel_nil]
  | succ f ih =>
    intro f2 lines h1 h2
    cases lines with
    | nil => rw [parseCuesFuel_nil, parseCuesFuel_nil]
    | cons line rest =>
      cases f2 with
      | zero => exact absurd h2 (by simp)
      | succ g =>
        have hr : rest.length ≤ f := by
          simp only [List.length_cons] at h1
          omega
        have hrg : rest.length ≤ g := by
          simp only [List.length_cons] at h2
          omega
        have hdw : (rest.dropWhile (fun l => !blankStr l)).length ≤ rest.length :=
          List.Sublist.length_le (List.dropWhile_sublist _)
        have hdw2 : ((rest.dropWhile (fun l => !blankStr l)).dropWhile
            (fun l => blankStr l)).length ≤ rest.length :=
          List.Sublist.length_le
            ((List.dropWhile_sublist _).trans (List.dropWhile_sublist _))
        simp only [parseCuesFuel]
        split
        · split
          · exact ih g _ (le_trans hdw hr) (le_trans hdw hrg)
          · exact ih g rest hr hrg
        · cases htp : tsParse line with
          | none => exact ih g rest hr hrg
          | some ab =>
            cases ab with
            | mk a b =>
              dsimp only
              rw [ih g _ (le_trans hdw2 hr) (le_trans hdw2 hrg)]

theorem parseCuesFuel_skip_header (f : Nat) (rest : List String) :
    parseCuesFuel (f + 1) ("WEBVTT" :: rest) = parseCuesFuel f rest := by
  simp only [parseCuesFuel]
  rw [if_pos (by decide), if_neg (by decide)]

theorem parseCuesFuel_skip_blank (f : Nat) (rest : List String) :
    parseCuesFuel (f + 1) ("" :: rest) = parseCuesFuel f rest := by
  simp only [parseCuesFuel]
  rw [if_pos (by decide), if_neg (by decide)]

theorem parseVttCues_preamble (rest : List String) :
    parseVttCues ("WEBVTT" :: "" :: rest) = parseVttCues rest := by
  unfold parseVttCues
  simp only [List.length_cons]
  rw [parseCuesFuel_skip_header, parseCuesFuel_skip_blank]

theorem parseVttCues_block {b : CueBlock} {rest : List String} (hwf : WFBlock b)
    (hrest : rest = [] ∨ ∃ h t, rest = h :: t ∧ blankStr h = false) :
    parseVttCues (renderBlock b ++ rest) =
      (b.startS, b.stopS, b.txt) :: parseVttCues rest := by
  obtain ⟨hts, htxt, hblank⟩ := hwf
  obtain ⟨hne, hw, hs, hn, hb⟩ := tsParse_line_props hts
  have hshape : renderBlock b ++ rest = b.line :: (b.txt ++ "" :: rest) := by
    unfold renderBlock
    simp
  rw [hshape]
  unfold parseVttCues
  simp only [List.length_cons]
  simp only [parseCuesFuel]
  rw [if_neg (by rw [hne, hw, hs, hn]; simp)]
  rw [hts]
  dsimp only
  have hnotblank : ∀ x ∈ b.txt, (!blankStr x) = true := by
    intro x hx
    rw [hblank x hx]
    rfl
  have hblankfalse : (!blankStr ("" : String)) = false := by decide
  rw [takeWhile_block hnotblank hblankfalse, dropWhile_block hnotblank hblankfalse]
  rw [List.dropWhile_cons]
  rw [if_pos (by decide)]
  have hr2 : rest.dropWhile (fun l => blankStr l) = rest := by
    rcases hrest with hnil | ⟨h, t, hcons, hbl⟩
    · rw [hnil]
      rfl
    · rw [hcons]
      exact dropWhile_cons_neg hbl
  rw [hr2]
  congr 1
  exact parseCuesFuel_irrel _ _ rest (by simp; omega) (le_refl _)

theorem renderBlocks_head_nonblank {blocks : List CueBlock}
    (h : ∀ b ∈ blocks, WFBlock b) :
    renderBlocks blocks = [] ∨
      ∃ x t, renderBlocks blocks = x :: t ∧ blankStr x = false := by
  cases blocks with
  | nil => exact Or.inl rfl
  | cons b bs =>
    right
    refine ⟨b.line, b.txt ++ [""] ++ renderBlocks bs, ?_, ?_⟩
    · rw [show renderBlocks (b :: bs) = renderBlock b ++ renderBlocks bs from rfl]
      unfold renderBlock
      simp
    · exact (tsParse_line_props (h b (by simp)).1).2.2.2.2

theorem parseVttCues_renderBlocks {blocks : List CueBlock}
    (h : ∀ b ∈ blocks, WFBlock b) :
    parseVttCues (renderBlocks blocks) =
      blocks.map (fun b => (b.startS, b.stopS, b.txt)) := by
  induction blocks with
  | nil => rfl
  | cons b bs ih =>
    have hb : WFBlock b := h b (by simp)
    have hbs : ∀ x ∈ bs, WFBlock x := fun x hx => h x (by simp [hx])
    rw [show renderBlocks (b :: bs) = renderBlock b ++ renderBlocks bs from rfl]
    rw [parseVttCues_block hb (renderBlocks_head_nonblank hbs)]
    rw [ih hbs]
    rfl

instance : IsTotal Candidate keyLe :=
  ⟨by
    intro a b
    unfold keyLe keyLt
    omega⟩

instance : IsTrans Candidate keyLe :=
  ⟨by
    intro a b c hab hbc
    unfold keyLe keyLt at *
    omega⟩

theorem pickBest_spec {l : List Candidate} {e : Candidate} (he : e ∈ l)
    (hmin : ∀ f ∈ l, f ≠ e → keyLt e f) : pickBest l = some e := by
  unfold pickBest
  have hperm := List.perm_insertionSort keyLe l
  have hsorted := List.sorted_insertionSort keyLe l
  cases hs : List.insertionSort keyLe l with
  | nil =>
    have hmem : e ∈ List.insertionSort keyLe l := hperm.mem_iff.mpr he
    rw [hs] at hmem
    simp at hmem
  | cons x xs =>
    simp only [List.head?_cons, Option.some.injEq]
    have hxl : x ∈ l := hperm.subset (by rw [hs]; simp)
    by_cases hxe : x = e
    · exact hxe
    · exfalso
      have hlt : keyLt e x := hmin x hxl hxe
      have hememsort : e ∈ x :: xs := by
        rw [← hs]
        exact hperm.mem_iff.mpr he
      rcases List.mem_cons.mp hememsort with h1 | h2
      · exact hxe h1.symm
      · rw [hs] at hsorted
        exact (List.sorted_cons.mp hsorted).1 e h2 hlt

theorem fetchFold_length (o : List String) :
    ∀ (sched : List Nat) (st : List (Option String)),
    (sched.foldl (fetchStep o) st).length = st.length := by
  intro sched
  induction sched with
  | nil => intro st; rfl
  | cons i rest ih =>
    intro st
    rw [List.foldl_cons, ih]
    simp [fetchStep]

theorem fetchFold_get? (o : List String) :
    ∀ (sched : List Nat) (st : List (Option String)) (j : Nat), j < st.length →
    (sched.foldl (fetchStep o) st).get? j =
      if j ∈ sched then some (some (o.getD j "")) else st.get? j := by
  intro sched
  induction sched with
  | nil =>
    intro st j hj
    simp
  | cons i rest ih =>
    intro st j hj
    rw [List.foldl_cons]
    have hlen : j < (fetchStep o st i).length := by
      simpa [fetchStep] using hj
    rw [ih _ j hlen]
    by_cases hjr : j ∈ rest
    · simp [hjr]
    · simp only [hjr, if_false]
      by_cases hij : i = j
      · subst hij
        unfold fetchStep
        rw [List.get?_set_eq_of_lt _ hj]
        simp
      · unfold fetchStep
        rw [List.get?_set_ne _ _ hij]
        simp only [List.mem_cons, hjr, or_false]
        rw [if_neg (fun h : j = i => hij h.symm)]

theorem runFetches_eq (o : List String) (sched : List Nat)
    (hperm : sched.Perm (List.range o.length)) :
    runFetches o sched = o.map some := by
  rw [List.ext_get?_iff]
  intro n
  unfold runFetches
  by_cases hn : n < o.length
  · rw [fetchFold_get? o sched _ n (by simpa using hn)]
    have hmem : n ∈ sched := hperm.mem_iff.mpr (List.mem_range.mpr hn)
    rw [if_pos hmem]
    rw [List.get?_map, List.get?_eq_get hn]
    simp [List.getD_eq_getElem?_getD, List.getElem?_eq_getElem hn, List.get_eq_getElem]
  · have hge : o.length ≤ n := Nat.le_of_not_lt hn
    have h1 : (sched.foldl (fetchStep o) (List.replicate o.length none)).get? n = none := by
      apply List.get?_eq_none.mpr
      rw [fetchFold_length]
      simpa using hge
    have h2 : (o.map some).get? n = none := by
      apply List.get?_eq_none.mpr
      simpa using hge
    rw [h1, h2]

theorem finalFragments_eq (o : List String) (sched : List Nat)
    (hperm : sched.Perm (List.range o.length)) : finalFragments o sched = o := by
  unfold finalFragments
  rw [runFetches_eq o sched hperm, List.map_map]
  simp [Function.comp_def, Option.getD_some]

theorem toNat_ofNat_small {n : Nat} (h : n < 55296) : (Char.ofNat n).toNat = n := by
  have hv : n.isValidChar := Or.inl h
  unfold Char.ofNat
  rw [dif_pos hv]
  unfold Char.ofNatAux Char.toNat
  simp [UInt32.toNat, BitVec.toNat_ofNatLt]

theorem pyUpperChar_idem (c : Char) : pyUpperChar (pyUpperChar c) = pyUpperChar c := by
  unfold pyUpperChar
  by_cases h : 97 ≤ c.toNat ∧ c.toNat ≤ 122
  · rw [if_pos h]
    have hted : (Char.ofNat (c.toNat - 32)).toNat = c.toNat - 32 :=
      toNat_ofNat_small (by omega)
    rw [if_neg (by rw [hted]; omega)]
  · rw [if_neg h, if_neg h]

theorem pyUpperChars_idem (l : List Char) : pyUpperChars (pyUpperChars l) = pyUpperChars l := by
  unfold pyUpperChars
  rw [List.map_map]
  exact List.map_congr_left (fun c _ => pyUpperChar_idem c)

theorem pyUpperStr_pyStripUpper (s : String) : pyUpperStr (pyStripUpper s) = pyStripUpper s := by
  unfold pyUpperStr pyStripUpper
  rw [pyUpperChars_idem]

theorem pyUpperChar_low {c : Char} (h : c.toNat < 97) : pyUpperChar c = c := by
  unfold pyUpperChar
  rw [if_neg (by omega)]

theorem aliasFold_get (canonical : String) :
    ∀ (as : List String) (m : List (String × String)) (k : String),
    dictGet? (as.foldl (fun m a =>
        let a2 := pyStripUpper a
        if a2 ≠ "" then dictInsert m a2 canonical else m) m) k =
      if k ∈ (as.map pyStripUpper).filter (fun a => a ≠ "") then some canonical
      else dictGet? m k := by
  intro as
  induction as with
  | nil =>
    intro m k
    simp
  | cons a rest ih =>
    intro m k
    rw [List.foldl_cons]
    dsimp only
    by_cases hpa : pyStripUpper a ≠ ""
    · rw [if_pos hpa, ih]
      have hcons : ((a :: rest).map pyStripUpper).filter (fun x => x ≠ "") =
          pyStripUpper a :: (rest.map pyStripUpper).filter (fun x => x ≠ "") := by
        simp [List.filter_cons, hpa]
      rw [hcons]
      by_cases hk : k ∈ (rest.map pyStripUpper).filter (fun x => x ≠ "")
      · rw [if_pos hk, if_pos (List.mem_cons_of_mem _ hk)]
      · rw [if_neg hk]
        simp only [dictInsert, dictGet?]
        by_cases hak : pyStripUpper a = k
        · rw [if_pos hak, if_pos (by rw [← hak]; exact List.mem_cons_self _ _)]
        · rw [if_neg hak, if_neg ?_]
          simp only [List.mem_cons]
          intro hmem
          rcases hmem with h1 | h2
          · exact hak h1.symm
          · exact hk h2
    · rw [if_neg hpa, ih]
      have hcons : ((a :: rest).map pyStripUpper).filter (fun x => x ≠ "") =
          (rest.map pyStripUpper).filter (fun x => x ≠ "") := by
        simp only [List.map_cons, List.filter_cons]
        rw [if_neg (by simpa using hpa)]
      rw [hcons]

theorem loadStep_alias_get (st : NormState) (r : MapRow) (k : String) :
    dictGet? (loadStep st r).alias_to_canonical k =
      if definesKey r k then some (rowCanonical r)
      else dictGet? st.alias_to_canonical k := by
  unfold loadStep
  by_cases hc : pyStripUpper (pyOr r.canonical "") = ""
  · rw [if_pos hc]
    rw [if_neg (fun hd => hd.1 (by unfold rowCanonical; exact hc))]
  · rw [if_neg hc]
    dsimp only
    have hrowc : rowCanonical r = pyStripUpper (pyOr r.canonical "") := rfl
    have hrowsp : rowSpeakerKey r =
        pyStripUpper (pyOr r.speaker (pyStripUpper (pyOr r.canonical ""))) := rfl
    by_cases ha : pyStrip (pyOr r.aliases "") ≠ ""
    · rw [if_pos ha]
      rw [apply_ite NormState.alias_to_canonical]
      dsimp only
      rw [ite_self, aliasFold_get]
      have hkeys : rowAliasKeys r =
          ((splitAliases (pyStrip (pyOr r.aliases ""))).map pyStripUpper).filter
            (fun x => x ≠ "") := by
        unfold rowAliasKeys
        rw [if_pos ha]
      by_cases hk1 : k ∈ rowAliasKeys r
      · rw [hkeys] at hk1
        rw [if_pos hk1, if_pos ⟨hc, Or.inr (hkeys ▸ hk1)⟩, hrowc]
      · rw [hkeys] at hk1
        rw [if_neg hk1]
        simp only [dictInsert, dictGet?]
        by_cases hk2 : k = rowSpeakerKey r
        · rw [if_pos (by rw [← hrowsp, hk2]), if_pos ⟨hc, Or.inl hk2⟩, hrowc]
        · rw [if_neg (fun hh => hk2 (by rw [hrowsp]; exact hh.symm))]
          rw [if_neg (fun hd => ?_)]
          rcases hd.2 with h1 | h2
          · exact hk2 h1
          · exact hk1 (hkeys ▸ h2)
    · rw [if_neg ha]
      rw [apply_ite NormState.alias_to_canonical]
      dsimp only
      rw [ite_self]
      simp only [dictInsert, dictGet?]
      have hkeys : rowAliasKeys r = [] := by
        unfold rowAliasKeys
        rw [if_neg ha]
      by_cases hk2 : k = rowSpeakerKey r
      · rw [if_pos (by rw [← hrowsp, hk2]), if_pos ⟨hc, Or.inl hk2⟩, hrowc]
      · rw [if_neg (fun hh => hk2 (by rw [hrowsp]; exact hh.symm))]
        rw [if_neg (fun hd => ?_)]
        rcases hd.2 with h1 | h2
        · exact hk2 h1
        · rw [hkeys] at h2
          simp at h2

theorem loadRows_alias_aux : ∀ (rows : List MapRow) (st : NormState) (k : String),
    dictGet? (rows.foldl loadStep st).alias_to_canonical k =
      match lastCanonFor rows k with
      | some c => some c
      | none => dictGet? st.alias_to_canonical k := by
  intro rows
  induction rows with
  | nil =>
    intro st k
    rfl
  | cons r rest ih =>
    intro st k
    rw [List.foldl_cons, ih]
    rw [show lastCanonFor (r :: rest) k =
        (match lastCanonFor rest k with
         | some c => some c
         | none => if definesKey r k then some (rowCanonical r) else none) from rfl]
    cases hl : lastCanonFor rest k with
    | some c => rfl
    | none =>
      dsimp only
      rw [loadStep_alias_get]
      by_cases hd : definesKey r k
      · rw [if_pos hd, if_pos hd]
      · rw [if_neg hd, if_neg hd]

theorem loadRows_alias (rows : List MapRow) (k : String) :
    dictGet? (loadRows rows).alias_to_canonical k = lastCanonFor rows k := by
  unfold loadRows
  rw [loadRows_alias_aux]
  cases lastCanonFor rows k with
  | some c => rfl
  | none => rfl

theorem loadStep_role_get (st : NormState) (r : MapRow) (c : String) :
    dictGet? (loadStep st r).canonical_role c =
      if rowCanonical r = c ∧ rowCanonical r ≠ "" ∧ rowRole r ≠ "" then some (rowRole r)
      else dictGet? st.canonical_role c := by
  unfold loadStep
  have hrowc : rowCanonical r = pyStripUpper (pyOr r.canonical "") := rfl
  have hrowr : rowRole r = pyStrip (pyOr r.role "") := rfl
  by_cases hc : pyStripUpper (pyOr r.canonical "") = ""
  · rw [if_pos hc]
    rw [if_neg (fun hd => hd.2.1 (by rw [hrowc]; exact hc))]
  · rw [if_neg hc]
    dsimp only
    rw [apply_ite NormState.canonical_role]
    dsimp only
    rw [ite_self]
    rw [apply_ite NormState.canonical_role]
    dsimp only
    by_cases hr : pyStrip (pyOr r.role "") ≠ ""
    · rw [if_pos hr]
      simp only [dictInsert, dictGet?]
      by_cases hcc : pyStripUpper (pyOr r.canonical "") = c
      · rw [if_pos hcc, if_pos ⟨hrowc ▸ hcc, hrowc ▸ hc, hrowr ▸ hr⟩, hrowr]
      · rw [if_neg hcc, if_neg (fun hd => hcc (hrowc ▸ hd.1))]
    · rw [if_neg hr]
      rw [if_neg (fun hd => hr (hrowr ▸ hd.2.2))]

theorem loadRows_role_aux : ∀ (rows : List MapRow) (st : NormState) (c : String),
    dictGet? (rows.foldl loadStep st).canonical_role c =
      match lastRoleFor rows c with
      | some x => some x
      | none => dictGet? st.canonical_role c := by
  intro rows
  induction rows with
  | nil =>
    intro st c
    rfl
  | cons r rest ih =>
    intro st c
    rw [List.foldl_cons, ih]
    rw [show lastRoleFor (r :: rest) c =
        (match lastRoleFor rest c with
         | some x => some x
         | none =>
            if rowCanonical r = c ∧ rowCanonical r ≠ "" ∧ rowRole r ≠ "" then some (rowRole r)
            else none) from rfl]
    cases hl : lastRoleFor rest c with
    | some x => rfl
    | none =>
      dsimp only
      rw [loadStep_role_get]
      by_cases hd : rowCanonical r = c ∧ rowCanonical r ≠ "" ∧ rowRole r ≠ ""
      · rw [if_pos hd, if_pos hd]
      · rw [if_neg hd, if_neg hd]

theorem loadRows_role (rows : List MapRow) (c : String) :
    dictGet? (loadRows rows).canonical_role c = lastRoleFor rows c := by
  unfold loadRows
  rw [loadRows_role_aux]
  cases lastRoleFor rows c with
  | some x => rfl
  | none => rfl

theorem lastCanonFor_mem : ∀ (rows : List MapRow) (k c : String),
    lastCanonFor rows k = some c → ∃ r, r ∈ rows ∧ c = rowCanonical r := by
  intro rows
  induction rows with
  | nil =>
    intro k c h
    simp [lastCanonFor] at h
  | cons r rest ih =>
    intro k c h
    rw [show lastCanonFor (r :: rest) k =
        (match lastCanonFor rest k with
         | some x => some x
         | none => if definesKey r k then some (rowCanonical r) else none) from rfl] at h
    cases hl : lastCanonFor rest k with
    | some x =>
      rw [hl] at h
      dsimp only at h
      obtain ⟨r', hr', hc'⟩ := ih k x hl
      cases h
      exact ⟨r', List.mem_cons_of_mem _ hr', hc'⟩
    | none =>
      rw [hl] at h
      dsimp only at h
      by_cases hd : definesKey r k
      · rw [if_pos hd] at h
        cases h
        exact ⟨r, List.mem_cons_self _ _, rfl⟩
      · rw [if_neg hd] at h
        simp at h

theorem notSpace_of_ge {c : Char} (h : 33 ≤ c.toNat) : pyIsSpace c = false := by
  unfold pyIsSpace
  have hne : ∀ d : Char, d.toNat < 33 → (c == d) = false := by
    intro d hd
    rw [Bool.eq_false_iff]
    intro hbeq
    rw [beq_iff_eq] at hbeq
    subst hbeq
    omega
  rw [hne ' ' (by decide), hne '\t' (by decide), hne '\n' (by decide),
    hne '\r' (by decide), hne '\x0b' (by decide), hne '\x0c' (by decide)]
  rfl

theorem speakerClass_upperFix {c : Char} (h : isSpeakerClass c = true) :
    pyUpperChar c = c := by
  apply pyUpperChar_low
  unfold isSpeakerClass at h
  simp only [Bool.or_eq_true] at h
  rcases h with ((((((h | h) | h) | h) | h) | h) | h) | h
  · unfold isUpperA at h
    rw [Bool.and_eq_true, decide_eq_true_iff, decide_eq_true_iff] at h
    omega
  · unfold isDigitA at h
    rw [Bool.and_eq_true, decide_eq_true_iff, decide_eq_true_iff] at h
    omega
  all_goals rw [beq_iff_eq] at h
  all_goals subst h
  all_goals decide

theorem groupOneOk_le {cs : List Char} {n : Nat} (h : groupOneOk cs n = true) :
    n ≤ cs.length := by
  unfold groupOneOk at h
  match cs, h with
  | c0 :: rest, h =>
    rw [Bool.and_eq_true, Bool.and_eq_true] at h
    exact of_decide_eq_true h.2

theorem groupOneOk_shape {cs : List Char} {n : Nat} (h : groupOneOk cs n = true) :
    ∃ c0 rest, cs = c0 :: rest ∧ isUpperA c0 = true ∧
      (rest.take (n - 1)).all isSpeakerClass = true := by
  unfold groupOneOk at h
  match cs, h with
  | c0 :: rest, h =>
    rw [Bool.and_eq_true, Bool.and_eq_true] at h
    exact ⟨c0, rest, rfl, h.1.1, h.1.2⟩

theorem groupOneOk_chars {cs : List Char} {n : Nat} (h : groupOneOk cs n = true) :
    ∀ c ∈ cs.take n, pyUpperChar c = c := by
  obtain ⟨c0, rest, hcs, hup, hall⟩ := groupOneOk_shape h
  subst hcs
  intro c hc
  cases n with
  | zero => simp at hc
  | succ m =>
    rw [List.take_succ_cons] at hc
    rcases List.mem_cons.mp hc with h1 | h2
    · subst h1
      apply pyUpperChar_low
      unfold isUpperA at hup
      rw [Bool.and_eq_true, decide_eq_true_iff, decide_eq_true_iff] at hup
      omega
    · apply speakerClass_upperFix
      have hm : c ∈ rest.take (m + 1 - 1) := by simpa using h2
      exact List.all_eq_true.mp hall c hm

theorem pyStrip_upperFix {l : List Char} (h : ∀ c ∈ l, pyUpperChar c = c) :
    pyUpperChars (pyStripChars l) = pyStripChars l := by
  unfold pyUpperChars
  have h2 : ∀ c ∈ pyStripChars l, pyUpperChar c = c :=
    fun c hc => h c (mem_of_mem_pyStripChars hc)
  calc (pyStripChars l).map pyUpperChar = (pyStripChars l).map id :=
        List.map_congr_left (fun c hc => h2 c hc)
    _ = pyStripChars l := List.map_id _

theorem pyStripChars_ne_nil {l : List Char} {c : Char} (hmem : c ∈ l)
    (hns : pyIsSpace c = false) : pyStripChars l ≠ [] := by
  intro hnil
  unfold pyStripChars at hnil
  rw [List.reverse_eq_nil_iff, List.dropWhile_eq_nil_iff] at hnil
  have hsplit := List.takeWhile_append_dropWhile (p := pyIsSpace) (l := l)
  rw [← hsplit] at hmem
  rcases List.mem_append.mp hmem with h1 | h2
  · have := List.mem_takeWhile_imp h1
    rw [hns] at this
    exact Bool.false_ne_true this
  · have := hnil c (List.mem_reverse.mpr h2)
    rw [hns] at this
    exact Bool.false_ne_true this

theorem mkStr_ne_empty {l : List Char} (h : l ≠ []) : (⟨l⟩ : String) ≠ "" := by
  intro he
  exact h (by simpa using congrArg String.data he)

theorem speakerScan_sound : ∀ (k : Nat) (cs : List Char) (g : List Char × List Char),
    speakerScan cs k = some g →
    ∃ n, 2 ≤ n ∧ n ≤ k ∧ groupOneOk cs n = true ∧ restOk (cs.drop n) = some g.2 ∧
      g.1 = cs.take n := by
  intro k
  induction k with
  | zero =>
    intro cs g h
    exact absurd h (by simp [speakerScan])
  | succ m ih =>
    intro cs g h
    cases m with
    | zero => exact absurd h (by simp [speakerScan])
    | succ m' =>
      rw [speakerScan] at h
      by_cases hok : groupOneOk cs (m' + 2) = true
      · rw [if_pos hok] at h
        cases hrest : restOk (cs.drop (m' + 2)) with
        | some g2 =>
          rw [hrest] at h
          cases h
          exact ⟨m' + 2, by omega, le_refl _, hok, hrest, rfl⟩
        | none =>
          rw [hrest] at h
          obtain ⟨n, h2, hle, hgo, hro, hg1⟩ := ih cs g h
          exact ⟨n, h2, by omega, hgo, hro, hg1⟩
      · rw [if_neg hok] at h
        obtain ⟨n, h2, hle, hgo, hro, hg1⟩ := ih cs g h
        exact ⟨n, h2, by omega, hgo, hro, hg1⟩

theorem speakerScan_complete : ∀ (k n : Nat) (cs : List Char), 2 ≤ n → n ≤ k →
    groupOneOk cs n = true → (restOk (cs.drop n)).isSome = true →
    (speakerScan cs k).isSome = true := by
  intro k
  induction k with
  | zero =>
    intro n cs h2 hle _ _
    omega
  | succ m ih =>
    intro n cs h2 hle hok hro
    cases m with
    | zero => omega
    | succ m' =>
      rw [speakerScan]
      by_cases hok2 : groupOneOk cs (m' + 2) = true
      · rw [if_pos hok2]
        cases hrest : restOk (cs.drop (m' + 2)) with
        | some g2 => simp
        | none =>
          have hne : n ≠ m' + 2 := by
            intro he
            rw [he, hrest] at hro
            simp at hro
          exact ih n cs h2 (by omega) hok hro
      · rw [if_neg hok2]
        have hne : n ≠ m' + 2 := fun he => hok2 (he ▸ hok)
        exact ih n cs h2 (by omega) hok hro

theorem extract_speaker_eq_none {t : String} (hm : speakerMatchChars t.data = none) :
    extract_speaker t = (none, none, t) := by
  unfold extract_speaker
  rw [hm]

theorem extract_speaker_eq_some {t : String} {g1 g2 : List Char}
    (hm : speakerMatchChars t.data = some (g1, g2))
    (hfix : pyUpperChars (pyStripChars g1) = pyStripChars g1) :
    extract_speaker t =
      (some ⟨pyStripChars g1⟩, some ⟨slashTighten (collapseWs (pyStripChars g1))⟩,
        if (pyStripChars g2).isEmpty then t else ⟨pyStripChars g2⟩) := by
  unfold extract_speaker
  rw [hm]
  dsimp only
  rw [if_neg (fun hne => hne hfix)]

theorem speakerMatch_upperFix {t : String} {g1 g2 : List Char}
    (hm : speakerMatchChars t.data = some (g1, g2)) :
    pyUpperChars (pyStripChars g1) = pyStripChars g1 := by
  obtain ⟨n, _, _, hok, _, hg1⟩ := speakerScan_sound _ _ _ hm
  have hg1x : g1 = List.take n t.data := hg1
  rw [hg1x]
  exact pyStrip_upperFix (groupOneOk_chars hok)

/-! ## Claim theorems -/

/-- C1 (corrected): within a candidate group the selector returns the
stable-sort head, which is the entry with the strictly minimal key
`(not lang_hit, not is_sdh, t0)` whenever that minimizer is unique, and this
winner is independent of the input order; a language-hit entry always beats a
non-hit, an SDH entry beats a non-SDH entry at equal language status, and the
earlier-requested entry wins at equal flags.  Uniqueness of the minimizer is
required: two distinct entries agreeing on both flags and on the timestamp
make the winner input-order-dependent. -/
theorem C1_candidate_selector :
    (∀ (l l' : List Candidate) (e : Candidate), l.Perm l' → e ∈ l →
      (∀ f ∈ l, f ≠ e → keyLt e f) → pickBest l = some e ∧ pickBest l' = some e) ∧
    (∀ a b : Candidate, a.lang_hit = true → b.lang_hit = false → keyLt a b) ∧
    (∀ a b : Candidate, a.lang_hit = b.lang_hit → a.is_sdh = true → b.is_sdh = false →
      keyLt a b) ∧
    (∀ a b : Candidate, a.lang_hit = b.lang_hit → a.is_sdh = b.is_sdh → a.t0 < b.t0 →
      keyLt a b) := by
  refine ⟨?_, ?_, ?_, ?_⟩
  · intro l l' e hperm he hmin
    refine ⟨pickBest_spec he hmin, pickBest_spec (hperm.subset he) ?_⟩
    intro f hf hne
    exact hmin f (hperm.symm.subset hf) hne
  · intro a b h1 h2
    unfold keyLt k1
    rw [h1, h2]
    simp
  · intro a b h1 h2 h3
    unfold keyLt k1 k2
    rw [h1, h2, h3]
    simp
  · intro a b h1 h2 h3
    unfold keyLt k1 k2
    rw [h1, h2]
    simp [h3]

/-- Witness for C1: the selector theorem applied to a concrete two-element
group in both orders; the language-hit candidate wins both times. -/
theorem C1_candidate_selector_witness :
    ([(⟨"u2", 5, "a", "p", false, false⟩ : Candidate), ⟨"u1", 3, "a", "p", false, true⟩].Perm
        [⟨"u1", 3, "a", "p", false, true⟩, ⟨"u2", 5, "a", "p", false, false⟩] ∧
      (⟨"u1", 3, "a", "p", false, true⟩ : Candidate) ∈
        [(⟨"u2", 5, "a", "p", false, false⟩ : Candidate), ⟨"u1", 3, "a", "p", false, true⟩] ∧
      (∀ f ∈ [(⟨"u2", 5, "a", "p", false, false⟩ : Candidate), ⟨"u1", 3, "a", "p", false, true⟩],
        f ≠ ⟨"u1", 3, "a", "p", false, true⟩ → keyLt ⟨"u1", 3, "a", "p", false, true⟩ f)) ∧
    pickBest [(⟨"u2", 5, "a", "p", false, false⟩ : Candidate), ⟨"u1", 3, "a", "p", false, true⟩] =
      some ⟨"u1", 3, "a", "p", false, true⟩ ∧
    pickBest [(⟨"u1", 3, "a", "p", false, true⟩ : Candidate), ⟨"u2", 5, "a", "p", false, false⟩] =
      some ⟨"u1", 3, "a", "p", false, true⟩ :=
  ⟨⟨by decide, by decide, by decide⟩,
    C1_candidate_selector.1 _ _ _ (by decide) (by decide) (by decide)⟩

/-- C2 (corrected): speaker extraction returns a tag exactly when the text
begins with an admissible group: an uppercase LETTER followed by 1 to 40
further characters from {uppercase letters, digits, space, ampersand,
apostrophe, period, slash, hyphen} (so 2 to 41 characters in all — a digit or
symbol cannot start the tag, contrary to the claim), then an optional
parenthetical aside and a colon (`SpeakerTagShape`).  When no tag is found
both speaker fields are empty and the text is returned whole; when a tag is
found the returned raw speaker is non-empty and equals its own uppercase
form, and the returned utterance text is never empty — when the part after
the colon is empty the whole original text is retained, contrary to the
claim's "the remainder after the colon".  The claim's two concrete examples
hold as stated. -/
theorem C2_speaker_extraction :
    extract_speaker "JANICE: I can't believe it." =
      (some "JANICE", some "JANICE", "I can't believe it.") ∧
    extract_speaker "Well: that escalated." = (none, none, "Well: that escalated.") ∧
    (∀ t : String, (extract_speaker t).1.isSome = true ↔ SpeakerTagShape t) ∧
    (∀ t : String, (extract_speaker t).1 = none → extract_speaker t = (none, none, t)) ∧
    (∀ (t : String) (raw norm rem : String),
      extract_speaker t = (some raw, some norm, rem) →
      pyUpperStr raw = raw ∧ raw ≠ "" ∧ rem ≠ "") := by
  refine ⟨by decide, by decide, ?_, ?_, ?_⟩
  · intro t
    cases hm : speakerMatchChars t.data with
    | none =>
      rw [extract_speaker_eq_none hm]
      simp only [Option.isSome_none, Bool.false_eq_true, false_iff]
      intro hshape
      obtain ⟨n, h2, h41, hok, hro⟩ := hshape
      have hcomplete := speakerScan_complete (min 41 t.data.length) n t.data h2
        (Nat.le_min.mpr ⟨h41, groupOneOk_le hok⟩) hok hro
      unfold speakerMatchChars at hm
      rw [hm] at hcomplete
      simp at hcomplete
    | some g =>
      obtain ⟨g1, g2⟩ := g
      rw [extract_speaker_eq_some hm (speakerMatch_upperFix hm)]
      simp only [Option.isSome_some, true_iff]
      obtain ⟨n, h2, hk, hok, hro, _⟩ := speakerScan_sound _ _ _ hm
      refine ⟨n, h2, le_trans hk (Nat.min_le_left _ _), hok, ?_⟩
      have hro2 : restOk (t.data.drop n) = some g2 := hro
      rw [hro2]
      rfl
  · intro t hnone
    cases hm : speakerMatchChars t.data with
    | none => exact extract_speaker_eq_none hm
    | some g =>
      obtain ⟨g1, g2⟩ := g
      rw [extract_speaker_eq_some hm (speakerMatch_upperFix hm)] at hnone
      simp at hnone
  · intro t raw norm rem hsome
    cases hm : speakerMatchChars t.data with
    | none =>
      rw [extract_speaker_eq_none hm] at hsome
      simp at hsome
    | some g =>
      obtain ⟨g1, g2⟩ := g
      have hfix := speakerMatch_upperFix hm
      rw [extract_speaker_eq_some hm hfix] at hsome
      obtain ⟨n, h2, hk, hok, hro, hg1⟩ := speakerScan_sound _ _ _ hm
      obtain ⟨c0, rest, hcs, hup, _⟩ := groupOneOk_shape hok
      have hg1x : g1 = List.take n t.data := hg1
      have hupfix : pyUpperStr (⟨pyStripChars g1⟩ : String) = ⟨pyStripChars g1⟩ := by
        unfold pyUpperStr
        exact congrArg String.mk hfix
      have hc0g1 : c0 ∈ g1 := by
        rw [hg1x, hcs]
        cases n with
        | zero => omega
        | succ m =>
          rw [List.take_succ_cons]
          exact List.mem_cons_self _ _
      have hc0ns : pyIsSpace c0 = false := by
        apply notSpace_of_ge
        unfold isUpperA at hup
        rw [Bool.and_eq_true, decide_eq_true_iff, decide_eq_true_iff] at hup
        omega
      have hraw_ne : (⟨pyStripChars g1⟩ : String) ≠ "" :=
        mkStr_ne_empty (pyStripChars_ne_nil hc0g1 hc0ns)
      have ht_ne : t ≠ "" := by
        intro he
        have : t.data = [] := by rw [he]
        rw [hcs] at this
        simp at this
      cases hsome
      refine ⟨hupfix, hraw_ne, ?_⟩
      by_cases hemp : (pyStripChars g2).isEmpty = true
      · rw [if_pos hemp]
        exact ht_ne
      · rw [if_neg hemp]
        apply mkStr_ne_empty
        intro hnil
        rw [hnil] at hemp
        simp at hemp

/-- Witness for C2: the characterization applied at concrete inputs — a
text with no colon yields the no-speaker triple, and the tag-shape
equivalence instantiated at a two-letter tag. -/
theorem C2_speaker_extraction_witness :
    ((extract_speaker "hello").1 = none) ∧
    extract_speaker "hello" = (none, none, "hello") ∧
    ((extract_speaker "AB: x").1.isSome = true ↔ SpeakerTagShape "AB: x") :=
  ⟨by decide, C2_speaker_extraction.2.2.2.1 "hello" (by decide),
    C2_speaker_extraction.2.2.1 "AB: x"⟩

/-- Counterexample for C2 as stated: `"12: go"` begins with a run of two
characters from the claim's set ({uppercase letters, digits, ...}) equal to
its own uppercase form and followed by a colon (`ClaimTagShape` holds), yet
the code extracts no speaker — the regex requires a leading `[A-Z]` letter;
and on `"JANICE:"` a tag is found but the utterance text is the whole
original text, not the empty remainder after the colon. -/
theorem C2_counterexample :
    extract_speaker "12: go" = (none, none, "12: go") ∧
    ClaimTagShape "12: go" ∧
    extract_speaker "JANICE:" = (some "JANICE", some "JANICE", "JANICE:") ∧
    ("JANICE:" : String) ≠ "" :=
  ⟨by decide, ⟨2, by decide, by decide, by decide, by decide, by decide, by decide⟩,
    by decide, by decide⟩

/-- C8 (corrected): speaker lookup is case-insensitive (it depends only on
the stripped-uppercased raw string) and alias-aware: the alias table maps a
key to the canonical of the last mapping row defining that key (as speaker
name or as one of its aliases), and the role attached to a canonical identity
is the last non-empty role recorded for it in the mapping source — later rows
overwrite earlier ones, so first-seen is wrong.  The resulting role is
applied uniformly: two records with the same speaker and the same prior role
field receive the same canonical speaker and the same role. -/
theorem C8_speaker_mapping :
    (∀ (st : NormState) (r1 r2 : String), pyStripUpper r1 = pyStripUpper r2 →
      normalize st r1 = normalize st r2) ∧
    (∀ (rows : List MapRow) (k : String),
      dictGet? (loadRows rows).alias_to_canonical k = lastCanonFor rows k) ∧
    (∀ (rows : List MapRow) (c : String),
      dictGet? (loadRows rows).canonical_role c = lastRoleFor rows c) ∧
    (∀ (st : NormState) (u1 u2 : Utterance), u1.speaker = u2.speaker →
      u1.speaker_role = u2.speaker_role →
      (applySpeakerNorm st u1).speaker = (applySpeakerNorm st u2).speaker ∧
      (applySpeakerNorm st u1).speaker_role = (applySpeakerNorm st u2).speaker_role) := by
  refine ⟨?_, loadRows_alias, loadRows_role, ?_⟩
  · intro st r1 r2 hkey
    unfold normalize
    rw [hkey]
  · intro st u1 u2 h1 h2
    unfold applySpeakerNorm
    dsimp only
    rw [h1, h2]
    by_cases hs : u2.speaker = ""
    · rw [if_neg (by simp [hs]), if_neg (by simp [hs])]
      exact ⟨h1, h2⟩
    · rw [if_pos hs, if_pos hs]
      split
      · exact ⟨rfl, rfl⟩
      · exact ⟨rfl, rfl⟩

/-- Witness for C8: the case-insensitivity part applied at a concrete state
and a concrete pair of raw strings differing only in case and whitespace. -/
theorem C8_speaker_mapping_witness :
    pyStripUpper " abby " = pyStripUpper "ABBY" ∧
    normalize ⟨[("ABBY", "ABBY")], [("ABBY", "coach")]⟩ " abby " =
      normalize ⟨[("ABBY", "ABBY")], [("ABBY", "coach")]⟩ "ABBY" :=
  ⟨by decide, C8_speaker_mapping.1 _ _ _ (by decide)⟩

/-- Counterexample for C8 as stated: two rows record the canonical `ABBY`
with roles `coach` then `mom`; the normalizer returns role `mom` (last seen),
while the first role seen for the identity is `coach`. -/
theorem C8_counterexample :
    normalize (loadRows [⟨some "Abby", some "coach", none, none⟩,
        ⟨some "ABBY", some "mom", none, none⟩]) "abby" = ("ABBY", "mom") ∧
    firstRoleFor [⟨some "Abby", some "coach", none, none⟩,
        ⟨some "ABBY", some "mom", none, none⟩] "ABBY" = some "coach" ∧
    ("mom" : String) ≠ "coach" :=
  ⟨by decide, by decide, by decide⟩

/-- C9 (corrected): for raw input whose stripped uppercase form is empty,
normalize returns two empty strings; for a key absent from the alias table
the canonical returned is the key itself, but the role is the role table's
entry for that key when the key happens to coincide with a recorded
canonical — it is not always empty; and the canonical returned is always its
own uppercase. -/
theorem C9_unknown_speaker :
    (∀ (rows : List MapRow) (raw : String), pyStripUpper raw = "" →
      normalize (loadRows rows) raw = ("", "")) ∧
    (∀ (rows : List MapRow) (raw : String), pyStripUpper raw ≠ "" →
      dictGet? (loadRows rows).alias_to_canonical (pyStripUpper raw) = none →
      normalize (loadRows rows) raw =
        (pyStripUpper raw,
          (dictGet? (loadRows rows).canonical_role (pyStripUpper raw)).getD "")) ∧
    (∀ (rows : List MapRow) (raw : String),
      pyUpperStr (normalize (loadRows rows) raw).1 = (normalize (loadRows rows) raw).1) := by
  refine ⟨?_, ?_, ?_⟩
  · intro rows raw hkey
    unfold normalize
    rw [hkey, if_pos rfl]
  · intro rows raw hkey hnone
    unfold normalize
    rw [if_neg hkey, hnone]
    rfl
  · intro rows raw
    unfold normalize
    by_cases hkey : pyStripUpper raw = ""
    · rw [hkey, if_pos rfl]
      rfl
    · rw [if_neg hkey]
      dsimp only
      cases hl : dictGet? (loadRows rows).alias_to_canonical (pyStripUpper raw) with
      | none =>
        exact pyUpperStr_pyStripUpper raw
      | some c =>
        rw [loadRows_alias] at hl
        obtain ⟨r, _, hcr⟩ := lastCanonFor_mem rows (pyStripUpper raw) c hl
        show pyUpperStr c = c
        rw [hcr]
        exact pyUpperStr_pyStripUpper _

/-- Witness for C9: the unknown-key part applied at a mapping whose speaker
key differs from the canonical; the key `ABBY` is absent from the alias
table, yet its role lookup is performed on the role table. -/
theorem C9_unknown_speaker_witness :
    (pyStripUpper "ABBY" ≠ "" ∧
      dictGet? (loadRows [⟨some "ABBY", some "coach", some "MISS ABBY",
        none⟩]).alias_to_canonical (pyStripUpper "ABBY") = none) ∧
    normalize (loadRows [⟨some "ABBY", some "coach", some "MISS ABBY", none⟩]) "ABBY" =
      (pyStripUpper "ABBY",
        (dictGet? (loadRows [⟨some "ABBY", some "coach", some "MISS ABBY",
          none⟩]).canonical_role (pyStripUpper "ABBY")).getD "") :=
  ⟨⟨by decide, by decide⟩, C9_unknown_speaker.2.1 _ _ (by decide) (by decide)⟩

/-- Counterexample for C9 as stated: with one mapping row whose speaker name
is `MISS ABBY` for canonical `ABBY` with role `coach`, the key `ABBY` is not
in the alias table, yet `normalize` returns role `coach`, not the claimed
empty role. -/
theorem C9_counterexample :
    dictGet? (loadRows [⟨some "ABBY", some "coach", some "MISS ABBY",
      none⟩]).alias_to_canonical "ABBY" = none ∧
    normalize (loadRows [⟨some "ABBY", some "coach", some "MISS ABBY", none⟩]) "ABBY" =
      ("ABBY", "coach") ∧
    ("coach" : String) ≠ "" :=
  ⟨by decide, by decide, by decide⟩

/-- C7 (code bug): when every chosen candidate's playlist fetch fails, no
index row is collected and the index-writing step evaluates `index_rows[0]`,
raising `IndexError` — the run aborts instead of completing and writing the
index file.  When only some fetches fail, exactly those candidates' episodes
are skipped and the run completes with rows for the remaining episodes. -/
theorem C7_index_write_crash :
    dumpRun [⟨"u1", 0, "a", "p", false, false⟩] (fun _ => none) =
      Except.error "IndexError: list index out of range" ∧
    dumpRun [⟨"bad", 0, "a", "p", false, false⟩, ⟨"ok", 1, "b", "p", false, false⟩]
        (fun u => if u = "bad" then none else some "#EXTM3U") =
      Except.ok [⟨2, "ok", "b"⟩] :=
  ⟨rfl, rfl⟩

/-- C10 (confirmed): the speaker-normalization pass changes at most the
`speaker` and `speaker_role` fields of a record; season, episode,
episode_id, start, end, speaker_raw, text and is_caption_note are unchanged,
and a record with an empty speaker is returned entirely unchanged. -/
theorem C10_frame_effect :
    ∀ (st : NormState) (u : Utterance),
      (applySpeakerNorm st u).season = u.season ∧
      (applySpeakerNorm st u).episode = u.episode ∧
      (applySpeakerNorm st u).episode_id = u.episode_id ∧
      (applySpeakerNorm st u).startS = u.startS ∧
      (applySpeakerNorm st u).stopS = u.stopS ∧
      (applySpeakerNorm st u).speaker_raw = u.speaker_raw ∧
      (applySpeakerNorm st u).text = u.text ∧
      (applySpeakerNorm st u).is_caption_note = u.is_caption_note ∧
      (u.speaker = "" → applySpeakerNorm st u = u) := by
  intro st u
  unfold applySpeakerNorm
  by_cases hs : u.speaker = ""
  · rw [if_neg (by simp [hs])]
    exact ⟨rfl, rfl, rfl, rfl, rfl, rfl, rfl, rfl, fun _ => rfl⟩
  · rw [if_pos hs]
    dsimp only
    split
    · exact ⟨rfl, rfl, rfl, rfl, rfl, rfl, rfl, rfl, fun h => absurd h hs⟩
    · exact ⟨rfl, rfl, rfl, rfl, rfl, rfl, rfl, rfl, fun h => absurd h hs⟩

/-- Witness for C10: the frame theorem applied at a concrete empty-speaker
record, whose hypothesis is discharged by `rfl`; the record is unchanged. -/
theorem C10_frame_effect_witness :
    applySpeakerNorm ⟨[], []⟩
        ⟨none, none, "S01E01", 0, 1, "", "", "", "(cheers)", true⟩ =
      ⟨none, none, "S01E01", 0, 1, "", "", "", "(cheers)", true⟩ :=
  (C10_frame_effect ⟨[], []⟩ _).2.2.2.2.2.2.2.2 rfl

/-- C6 (confirmed): with per-fragment outcomes fixed, the fragment array
after all slot writes equals the outcome list itself for every completion
schedule (any permutation of the fragment indices), so the merged transcript
is byte-identical across schedules. -/
theorem C6_fetch_order_determinism :
    ∀ (outcomes : List String) (s1 s2 : List Nat),
      s1.Perm (List.range outcomes.length) → s2.Perm (List.range outcomes.length) →
      finalFragments outcomes s1 = outcomes ∧ finalFragments outcomes s2 = outcomes ∧
      merge_vtts (finalFragments outcomes s1) = merge_vtts (finalFragments outcomes s2) := by
  intro o s1 s2 h1 h2
  refine ⟨finalFragments_eq o s1 h1, finalFragments_eq o s2 h2, ?_⟩
  rw [finalFragments_eq o s1 h1, finalFragments_eq o s2 h2]

/-- Witness for C6: two opposite completion schedules over a two-fragment
episode (one fetch failed, giving the empty-string sentinel) produce the same
array and the same merged transcript. -/
theorem C6_fetch_order_determinism_witness :
    ([1, 0].Perm (List.range (["WEBVTT\nA", ""] : List String).length) ∧
      [0, 1].Perm (List.range (["WEBVTT\nA", ""] : List String).length)) ∧
    finalFragments ["WEBVTT\nA", ""] [1, 0] = ["WEBVTT\nA", ""] ∧
    finalFragments ["WEBVTT\nA", ""] [0, 1] = ["WEBVTT\nA", ""] ∧
    merge_vtts (finalFragments ["WEBVTT\nA", ""] [1, 0]) =
      merge_vtts (finalFragments ["WEBVTT\nA", ""] [0, 1]) :=
  ⟨⟨by decide, by decide⟩,
    C6_fetch_order_determinism ["WEBVTT\nA", ""] [1, 0] [0, 1] (by decide) (by decide)⟩

/-- Counterexample for C1 as stated: two distinct candidates with identical
keys (same flags, same timestamp, different URLs).  The selector picks
whichever appears first, so the winner depends on the input order, against
the claimed order-independence. -/
theorem C1_counterexample :
    pickBest [(⟨"u1", 0, "a", "p", false, false⟩ : Candidate),
        ⟨"u2", 0, "a", "p", false, false⟩] = some ⟨"u1", 0, "a", "p", false, false⟩ ∧
    pickBest [(⟨"u2", 0, "a", "p", false, false⟩ : Candidate),
        ⟨"u1", 0, "a", "p", false, false⟩] = some ⟨"u2", 0, "a", "p", false, false⟩ ∧
    ((⟨"u1", 0, "a", "p", false, false⟩ : Candidate) ≠ ⟨"u2", 0, "a", "p", false, false⟩) ∧
    [(⟨"u1", 0, "a", "p", false, false⟩ : Candidate), ⟨"u2", 0, "a", "p", false, false⟩].Perm
      [⟨"u2", 0, "a", "p", false, false⟩, ⟨"u1", 0, "a", "p", false, false⟩] :=
  ⟨by decide, by decide, by decide, by decide⟩

instance (b : CueBlock) : Decidable (WFBlock b) := by
  unfold WFBlock
  infer_instance

theorem stampSeconds_whole (h m s : Nat) :
    stampSeconds (h, m, s, 0) = ((h * 3600 + m * 60 + s : Nat) : ℚ) := by
  unfold stampSeconds parse_time_to_seconds
  push_cast
  ring

theorem tsParse_ex1 : tsParse "00:00:01.000 --> 00:00:02.000" = some (1, 2) := by
  unfold tsParse
  rw [show tsMatchLine "00:00:01.000 --> 00:00:02.000" =
      some ((0, 0, 1, 0), (0, 0, 2, 0)) from by decide]
  simp only [Option.map_some']
  rw [stampSeconds_whole, stampSeconds_whole]
  norm_num

theorem tsParse_ex2 : tsParse "00:00:02.000 --> 00:00:01.000" = some (2, 1) := by
  unfold tsParse
  rw [show tsMatchLine "00:00:02.000 --> 00:00:01.000" =
      some ((0, 0, 2, 0), (0, 0, 1, 0)) from by decide]
  simp only [Option.map_some']
  rw [stampSeconds_whole, stampSeconds_whole]
  norm_num

/-- C5 (corrected): a merged document consisting of the header, a blank line
and K well-formed cue blocks parses to exactly the K cues; each cue's start
and end are the values computed by the hours, minutes, seconds, milliseconds
formula for the two stamps of its timestamp line (the content of `tsParse`
via `WFBlock`), and its raw text is exactly the block's non-blank text lines.
The inequality start ≤ end holds for every yielded cue only under the added
hypothesis that each timestamp line's left stamp value is at most its right
stamp value — the parser itself never enforces it. -/
theorem C5_cue_parsing :
    ∀ blocks : List CueBlock, (∀ b ∈ blocks, WFBlock b) →
      parseVttCues (renderDoc blocks) =
        blocks.map (fun b => (b.startS, b.stopS, b.txt)) ∧
      (parseVttCues (renderDoc blocks)).length = blocks.length ∧
      ((∀ b ∈ blocks, b.startS ≤ b.stopS) →
        ∀ c ∈ parseVttCues (renderDoc blocks), c.1 ≤ c.2.1) := by
  intro blocks h
  have hmain : parseVttCues (renderDoc blocks) =
      blocks.map (fun b => (b.startS, b.stopS, b.txt)) := by
    unfold renderDoc
    rw [parseVttCues_preamble, parseVttCues_renderBlocks h]
  refine ⟨hmain, by rw [hmain]; simp, ?_⟩
  intro hle c hc
  rw [hmain] at hc
  simp only [List.mem_map] at hc
  obtain ⟨b, hb, hcb⟩ := hc
  rw [← hcb]
  exact hle b hb

/-- Witness for C5: the parser theorem applied to a one-cue document. -/
theorem C5_cue_parsing_witness :
    (∀ b ∈ [(⟨"00:00:01.000 --> 00:00:02.000", 1, 2, ["hi"]⟩ : CueBlock)], WFBlock b) ∧
    parseVttCues (renderDoc [(⟨"00:00:01.000 --> 00:00:02.000", 1, 2, ["hi"]⟩ : CueBlock)]) =
      [(⟨"00:00:01.000 --> 00:00:02.000", 1, 2, ["hi"]⟩ : CueBlock)].map
        (fun b => (b.startS, b.stopS, b.txt)) := by
  have hwf : ∀ b ∈ [(⟨"00:00:01.000 --> 00:00:02.000", 1, 2, ["hi"]⟩ : CueBlock)],
      WFBlock b := by
    intro b hb
    simp only [List.mem_singleton] at hb
    subst hb
    exact ⟨tsParse_ex1, by decide, by decide⟩
  exact ⟨hwf, (C5_cue_parsing _ hwf).1⟩

/-- Counterexample for C5 as stated: the document whose single cue is
well-formed in the claim's sense (timestamp line, one non-blank text line,
end-of-input-terminated) but carries a reversed time pair yields a cue with
start = 2 and end = 1, violating the claimed start ≤ end. -/
theorem C5_counterexample :
    parseVttCues ["WEBVTT", "", "00:00:02.000 --> 00:00:01.000", "hi"] =
      [((2 : ℚ), (1 : ℚ), ["hi"])] ∧ ¬ ((2 : ℚ) ≤ 1) := by
  constructor
  · unfold parseVttCues
    simp only [List.length_cons, List.length_nil]
    rw [parseCuesFuel_skip_header, parseCuesFuel_skip_blank]
    simp only [parseCuesFuel]
    rw [if_neg (by decide), tsParse_ex2]
    rfl
  · decide

/-- C3 (corrected): on newline-free input (every normalized cue text is
newline-free), `is_note_only` returns true exactly when the stripped text has
length at least 3, begins with some opening bracket and ends with some
closing bracket; the interior characters and the matching of the pair are
not constrained, contrary to the claim.  The claim's two concrete examples do
hold as stated. -/
theorem C3_caption_note_classifier :
    (∀ t : String, t.data.all (fun c => !(c == '\n')) = true →
      is_note_only t = wrappedLoose (pyStripChars t.data)) ∧
    is_note_only "(audience laughs)" = true ∧
    is_note_only "HELLO: (quietly) hi" = false :=
  ⟨fun t h => is_note_only_eq_wrappedLoose t h, by decide, by decide⟩

/-- Witness for C3: the classifier theorem applied at the concrete input
`"(a b)"`. -/
theorem C3_caption_note_classifier_witness :
    ("(a b)".data.all (fun c => !(c == '\n')) = true) ∧
    is_note_only "(a b)" = wrappedLoose (pyStripChars "(a b)".data) :=
  ⟨by decide, C3_caption_note_classifier.1 "(a b)" (by decide)⟩

/-- Counterexample for C3 as stated: `"(a:b)"` is classified caption-note-only
by the code although its interior contains `:`, which the claim's
characterization (embodied by `noteOnlyClaim`) forbids; the claim's
characterization does accept the claim's own positive example. -/
theorem C3_counterexample :
    is_note_only "(a:b)" = true ∧ noteOnlyClaim "(a:b)" = false ∧
    noteOnlyClaim "(audience laughs)" = true ∧
    is_note_only "[x)" = true ∧ noteOnlyClaim "[x)" = false := by
  refine ⟨by decide, by decide, by decide, by decide, by decide⟩

/-- C4 (corrected): for a list of non-empty fragment texts, the merge output
is exactly one header block (the first fragment, verbatim) followed by one
continuation per further fragment, each a blank separator plus the fragment's
lines from its first timed-cue line; the continuation count is N-1.  The
non-emptiness hypothesis is required: empty fragments (the failure sentinel)
are skipped and contribute no continuation. -/
theorem C4_merge_structure :
    ∀ (v : String) (rest : List String), v ≠ "" → (∀ w ∈ rest, w ≠ "") →
      merge_vtts (v :: rest) = headerContinuations (splitlines v) (rest.map contOf) ∧
      (rest.map contOf).length = rest.length :=
  fun _ rest hv hrest => ⟨merge_vtts_eq_headerContinuations hv hrest, by simp⟩

/-- Witness for C4: the merge theorem applied to one header fragment and one
continuation fragment. -/
theorem C4_merge_structure_witness :
    ("WEBVTT" ≠ "" ∧ ∀ w ∈ ["junk\n00:00:00.000 --> 00:00:01.000\nhi"], w ≠ "") ∧
    merge_vtts ["WEBVTT", "junk\n00:00:00.000 --> 00:00:01.000\nhi"] =
      headerContinuations (splitlines "WEBVTT")
        (["junk\n00:00:00.000 --> 00:00:01.000\nhi"].map contOf) ∧
    (["junk\n00:00:00.000 --> 00:00:01.000\nhi"].map contOf).length =
      ["junk\n00:00:00.000 --> 00:00:01.000\nhi"].length :=
  ⟨⟨by decide, by decide⟩,
    C4_merge_structure "WEBVTT" ["junk\n00:00:00.000 --> 00:00:01.000\nhi"]
      (by decide) (by decide)⟩

/-- Counterexample for C4 as stated: with N = 3 fragments one of which is
empty (a failed fetch), the code emits a single continuation, not the N-1 = 2
blank-separated continuations the claim demands (embodied by `claimMerge`). -/
theorem C4_counterexample :
    merge_vtts ["A", "", "00:00:00.000 --> 00:00:01.000"] =
      "A\n\n00:00:00.000 --> 00:00:01.000\n" ∧
    claimMerge ["A", "", "00:00:00.000 --> 00:00:01.000"] =
      "A\n\n\n00:00:00.000 --> 00:00:01.000\n" ∧
    merge_vtts ["A", "", "00:00:00.000 --> 00:00:01.000"] ≠
      claimMerge ["A", "", "00:00:00.000 --> 00:00:01.000"] := by
  refine ⟨by decide, by decide, by decide⟩

end DanceMoms
